import Mathlib

/-!
# Locked.hpp: a value guarded by a mutex

A shallow embedding of `template <typename T, typename MUTEX> class Locked`
and of its two handle classes `Locked::pointer` and `Locked::const_pointer`.

* The mutex class is the template parameter `MUTEX`: it is not part of the
  header.  A mutex class is described by the member functions it declares
  (what `check_lock_shared` inspects), by whether it can be copy-constructed
  (what `mutex_(mutex)` needs when `MUTEX` is not a reference), and by its
  blocking behaviour, given as a function of the calls already completed on
  the mutex object.
* Every mutex object records the member calls that have completed on it, so
  every mutex is instrumented.
* A member call that does not return (it blocks) makes the enclosing
  constructor or destructor yield `none`.
* Objects live in a store: `mutex_` of a container is the index of the mutex
  object it denotes, `locked_` of a handle is the index of its container.
-/

namespace LockedHpp

/-- Identifier of the calling thread. -/
abbrev Thread := Nat

/-- The four mutex member functions that `Locked.hpp` calls. -/
inductive MutexOp where
  | lock
  | unlock
  | lock_shared
  | unlock_shared
deriving DecidableEq

/-- The C++ types that occur in the declarations of mutex member functions. -/
inductive CType where
  | void
  | bool
  | char
  | long
  | int
deriving DecidableEq

/-- The type of a non-static member function: `ret (U::*)(params) [const]`. -/
structure FnType where
  ret : CType
  params : List CType
  isConst : Bool
deriving DecidableEq

/-- The names of the member functions of the mutex classes considered. -/
inductive MemberName where
  | lock
  | try_lock
  | unlock
  | lock_shared
  | try_lock_shared
  | unlock_shared
  | native_handle
deriving DecidableEq

/-- The access of a member declaration: `public`, `protected` or `private`. -/
inductive Access where
  | pub
  | prot
  | priv
deriving DecidableEq

/-- One member function declaration of a mutex class: its name, its type, its
access, and whether it is declared `static`. -/
structure MemberFn where
  name : MemberName
  type : FnType
  access : Access
  isStatic : Bool
deriving DecidableEq

/-- A public non-static member function declaration. -/
def publicFn (name : MemberName) (type : FnType) : MemberFn := ⟨name, type, .pub, false⟩

/-- A completed member call on a mutex object: the calling thread and the member. -/
abbrev Call := Thread × MutexOp

/-- A mutex class, the argument of the template parameter `MUTEX` once a
reference is removed.  `members` are the member functions the class itself
declares (a member inherited from a base `B` is named by `&U::f` with a type
`R (B::*)()`, which is no `R (U::*)()`), `befriendsLocked` tells whether the
class declares `Locked<T, MUTEX>` a friend, and `admits calls t op` whether the
call `op` by thread `t` returns on a mutex object on which `calls` have
completed. -/
structure MutexClass where
  members : List MemberFn
  befriendsLocked : Bool := false
  copyable : Bool
  admits : List Call → Thread → MutexOp → Bool

/-- The template argument `MUTEX`: a mutex class `M` or a reference `M&`. -/
inductive MutexParam where
  | value (M : MutexClass)
  | ref (M : MutexClass)

/-- The `std::remove_reference<MUTEX>::type` of the header (`mutex_type`). -/
def remove_reference : MutexParam → MutexClass
  | .value M => M
  | .ref M => M

/-- The pointer-to-member type `void (U::*)()`. -/
def voidMemFn : FnType := ⟨.void, [], false⟩

/-- The size of the C++ types `check_lock_shared::f` returns (LP64). -/
def sizeof : CType → Nat
  | .void => 0
  | .bool => 1
  | .char => 1
  | .long => 8
  | .int => 4

/-- Whether the type `check<void (U::*)(), &U::lock_shared>` can be formed
inside `Locked<T, MUTEX>` with `&U::lock_shared` naming the declaration `m`:
`m` is named `lock_shared`, is a non-static member function of type
`void (U::*)()` exactly (no conversion applies to a pointer to member used as
template argument), and `Locked` may access it: it is public, or `U` declares
`Locked` a friend.  Otherwise the substitution fails. -/
def check_lock_shared.check (U : MutexClass) (m : MemberFn) : Bool :=
  decide (m.name = .lock_shared) && decide (m.type = voidMemFn) && !m.isStatic &&
    (decide (m.access = .pub) || U.befriendsLocked)

/-- The return type of `check_lock_shared::f<U>(0)`: the overload taking
`check<void (U::*)(), &U::lock_shared>*` is viable exactly when that type can
be formed, and then is preferred to the ellipsis overload; it returns `char`,
the other `long`. -/
def check_lock_shared.f (U : MutexClass) : CType :=
  if U.members.any (check_lock_shared.check U) then .char else .long

/-- The enumerator `has_lock_shared` of `Locked<T, MUTEX>`. -/
def has_lock_shared (MUTEX : MutexParam) : Bool :=
  sizeof (check_lock_shared.f (remove_reference MUTEX)) == sizeof .char

/-- A mutex object: its class and the member calls completed on it, oldest first. -/
structure MutexObj where
  cls : MutexClass
  calls : List Call

/-- A `Locked<T, MUTEX>` object: `mutex_` is the index of the mutex object that
the member `mutex_` denotes (the container's own mutex, or the referenced one
when `MUTEX` is a reference), `data_` is the guarded value. -/
structure LockedObj (T : Type) where
  MUTEX : MutexParam
  mutex_ : Nat
  data_ : T

/-- Which of the two handle classes an object belongs to. -/
inductive HandleKind where
  | pointer
  | const_pointer
deriving DecidableEq

/-- A handle object (`pointer` or `const_pointer`): `locked_` is the index of
the container that the reference member `locked_` is bound to, `thread` the
thread on which the handle lives. -/
structure Handle where
  kind : HandleKind
  locked_ : Nat
  thread : Thread
deriving DecidableEq

/-- The program state: mutex objects, containers, and the handles alive. -/
structure World (T : Type) where
  mutexes : List MutexObj
  objects : List (LockedObj T)
  handles : List Handle

/-- The state before any object is declared. -/
def World.empty (T : Type) : World T := ⟨[], [], []⟩

/-- A member call `op` by thread `t` on a mutex object; `none` when the call
does not return. -/
def MutexObj.call (m : MutexObj) (t : Thread) (op : MutexOp) : Option MutexObj :=
  if m.cls.admits m.calls t op then some { m with calls := m.calls ++ [(t, op)] } else none

/-- The call `mutexes[i].op()` made by thread `t`. -/
def World.callMutex {T : Type} (w : World T) (i : Nat) (t : Thread) (op : MutexOp) :
    Option (World T) :=
  match w.mutexes[i]? with
  | none => none
  | some m =>
    match m.call t op with
    | none => none
    | some m' => some { w with mutexes := w.mutexes.set i m' }

/-- A declaration `M mutex;` of a mutex object outside any container. -/
def World.declMutex {T : Type} (w : World T) (M : MutexClass) : World T :=
  { w with mutexes := w.mutexes ++ [⟨M, []⟩] }

/-- The constructor `Locked(Args&&... args)` of `Locked<T, M>`: `mutex_` is
default-constructed inside the container, `data_` is built from the arguments
(here: the value they build). -/
def Locked.ctor {T : Type} (w : World T) (M : MutexClass) (data : T) : World T :=
  { w with
    mutexes := w.mutexes ++ [⟨M, []⟩]
    objects := w.objects ++ [⟨.value M, w.mutexes.length, data⟩] }

/-- The constructor `Locked(MUTEX& mutex, Args&&... args)` with the mutex object
`mutex` of class `M` as first argument.  `isRef` tells whether `MUTEX` is `M&`
or `M`.  The initialiser `mutex_(mutex)` binds the reference member when `MUTEX`
is `M&`; when `MUTEX` is `M` it copy-constructs the container's own mutex from
`mutex` (the copy starts in the state of the original), which is ill-formed for
a class that cannot be copied. -/
def Locked.ctor_mutex {T : Type} (w : World T) (isRef : Bool) (mutex : Nat) (data : T) :
    Option (World T) :=
  match w.mutexes[mutex]? with
  | none => none
  | some m =>
    if isRef then
      some { w with objects := w.objects ++ [⟨.ref m.cls, mutex, data⟩] }
    else if m.cls.copyable then
      some { w with
             mutexes := w.mutexes ++ [m]
             objects := w.objects ++ [⟨.value m.cls, w.mutexes.length, data⟩] }
    else none

/-- The constructor `pointer(Locked&)` run by thread `t` on container `c`:
binds `locked_` and calls `locked_.mutex_.lock()`. -/
def pointer.ctor {T : Type} (w : World T) (t : Thread) (c : Nat) : Option (World T) :=
  match w.objects[c]? with
  | none => none
  | some L =>
    match w.callMutex L.mutex_ t .lock with
    | none => none
    | some w' => some { w' with handles := w'.handles ++ [⟨.pointer, c, t⟩] }

/-- The destructor `~pointer()` of a live handle: calls `locked_.mutex_.unlock()`. -/
def pointer.dtor {T : Type} (w : World T) (h : Handle) : Option (World T) :=
  if h ∈ w.handles ∧ h.kind = .pointer then
    match w.objects[h.locked_]? with
    | none => none
    | some L =>
      match w.callMutex L.mutex_ h.thread .unlock with
      | none => none
      | some w' => some { w' with handles := w'.handles.erase h }
  else none

/-- The two constructors `const_pointer(Locked&)`: the `enable_if` conditions
select the one calling `lock_shared()` when `has_lock_shared`, and the one
calling `lock()` otherwise. -/
def const_pointer.ctor {T : Type} (w : World T) (t : Thread) (c : Nat) : Option (World T) :=
  match w.objects[c]? with
  | none => none
  | some L =>
    match (if has_lock_shared L.MUTEX then w.callMutex L.mutex_ t .lock_shared
           else w.callMutex L.mutex_ t .lock) with
    | none => none
    | some w' => some { w' with handles := w'.handles ++ [⟨.const_pointer, c, t⟩] }

/-- The two members `const_pointer::unlock()`: `unlock_shared()` when
`has_lock_shared`, `unlock()` otherwise. -/
def const_pointer.unlock {T : Type} (w : World T) (h : Handle) : Option (World T) :=
  match w.objects[h.locked_]? with
  | none => none
  | some L =>
    if has_lock_shared L.MUTEX then w.callMutex L.mutex_ h.thread .unlock_shared
    else w.callMutex L.mutex_ h.thread .unlock

/-- The destructor `~const_pointer()` of a live handle: calls `unlock()`. -/
def const_pointer.dtor {T : Type} (w : World T) (h : Handle) : Option (World T) :=
  if h ∈ w.handles ∧ h.kind = .const_pointer then
    match const_pointer.unlock w h with
    | none => none
    | some w' => some { w' with handles := w'.handles.erase h }
  else none

/-- An address of a guarded value: `&objects[obj].data_`. -/
structure Ptr where
  obj : Nat
deriving DecidableEq

/-- The member `pointer_base::operator->()`: `&locked_.data_`. -/
def pointer_base.arrow (h : Handle) : Ptr := ⟨h.locked_⟩

/-- The member `pointer_base::operator*()`: the lvalue `locked_.data_`, given by its address. -/
def pointer_base.star (h : Handle) : Ptr := ⟨h.locked_⟩

/-- The conversion `pointer_base::operator U*()`: `&locked_.data_`. -/
def pointer_base.toPtr (h : Handle) : Ptr := ⟨h.locked_⟩

/-- Reading the value at an address (`get` of test.cpp: `*i`). -/
def get {T : Type} (w : World T) (i : Ptr) : Option T :=
  (w.objects[i.obj]?).map (fun L => L.data_)

/-- Writing a value at an address (`set` of test.cpp: `*i = value`). -/
def set {T : Type} (w : World T) (i : Ptr) (value : T) : Option (World T) :=
  match w.objects[i.obj]? with
  | none => none
  | some L => some { w with objects := w.objects.set i.obj { L with data_ := value } }


/-! ## Mutex classes passed as `MUTEX` in test.cpp, and test classes -/

/-- Number of completed calls of member `op` in a call record. -/
def countOp (op : MutexOp) (calls : List Call) : Nat :=
  (calls.filter (fun c => decide (c.2 = op))).length

/-- Number of completed calls of member `op` made by thread `t`. -/
def countBy (t : Thread) (op : MutexOp) (calls : List Call) : Nat :=
  (calls.filter (fun c => decide (c.1 = t ∧ c.2 = op))).length

/-- Whether thread `t` owns no exclusive lock: each of its `lock()` calls has
been followed by one of its `unlock()` calls. -/
def ownsNone (t : Thread) (calls : List Call) : Bool :=
  countBy t .lock calls == countBy t .unlock calls

/-- Whether thread `t` owns no shared lock. -/
def sharesNone (t : Thread) (calls : List Call) : Bool :=
  countBy t .lock_shared calls == countBy t .unlock_shared calls

/-- The class `std::mutex` (and `std::timed_mutex`, whose further members are
templates): `lock()` returns only when no thread owns a lock. -/
def std_mutex : MutexClass where
  members := [publicFn .lock voidMemFn, publicFn .try_lock ⟨.bool, [], false⟩,
    publicFn .unlock voidMemFn]
  copyable := false
  admits := fun calls _ op =>
    match op with
    | .lock => calls.all (fun c => ownsNone c.1 calls && sharesNone c.1 calls)
    | .unlock => true
    | _ => false

/-- The class `std::recursive_mutex`: `lock()` returns when no other thread
owns a lock. -/
def std_recursive_mutex : MutexClass where
  members := [publicFn .lock voidMemFn, publicFn .try_lock ⟨.bool, [], false⟩,
    publicFn .unlock voidMemFn]
  copyable := false
  admits := fun calls t op =>
    match op with
    | .lock => calls.all (fun c => c.1 == t || (ownsNone c.1 calls && sharesNone c.1 calls))
    | .unlock => true
    | _ => false

/-- The class `std::shared_mutex` (and `std::shared_timed_mutex`): `lock()`
returns only when no thread owns a lock of either kind, `lock_shared()` when
no thread owns an exclusive lock. -/
def std_shared_mutex : MutexClass where
  members := [publicFn .lock voidMemFn, publicFn .try_lock ⟨.bool, [], false⟩,
    publicFn .unlock voidMemFn, publicFn .lock_shared voidMemFn,
    publicFn .try_lock_shared ⟨.bool, [], false⟩, publicFn .unlock_shared voidMemFn]
  copyable := false
  admits := fun calls _ op =>
    match op with
    | .lock => calls.all (fun c => ownsNone c.1 calls && sharesNone c.1 calls)
    | .lock_shared => calls.all (fun c => ownsNone c.1 calls)
    | _ => true

/-- An instrumented test mutex that only records calls: a plain struct, so it
can be copied, and neither `lock()` nor `unlock()` ever blocks. -/
def counting_mutex : MutexClass where
  members := [publicFn .lock voidMemFn, publicFn .unlock voidMemFn]
  copyable := true
  admits := fun _ _ op =>
    match op with
    | .lock => true
    | .unlock => true
    | _ => false

/-- A test class with public `lock()` and `unlock()` that declares
`void lock_shared()` and `void unlock_shared()` as private members. -/
def private_shared : MutexClass where
  members := [publicFn .lock voidMemFn, publicFn .unlock voidMemFn,
    ⟨.lock_shared, voidMemFn, .priv, false⟩, ⟨.unlock_shared, voidMemFn, .priv, false⟩]
  copyable := true
  admits := fun _ _ _ => true

/-- A test class for a hand-written lock kept in a plain struct: it excludes like
`std::mutex`, and it can be copied. -/
def spin_mutex : MutexClass where
  members := [publicFn .lock voidMemFn, publicFn .unlock voidMemFn]
  copyable := true
  admits := fun calls _ op =>
    match op with
    | .lock => calls.all (fun c => ownsNone c.1 calls && sharesNone c.1 calls)
    | .unlock => true
    | _ => false

/-! ## Sequences of handle operations -/

/-- The operations a program performs with handles. -/
inductive Event (T : Type) where
  | pointer (t : Thread) (c : Nat)
  | const_pointer (t : Thread) (c : Nat)
  | destroy (h : Handle)
  | assign (h : Handle) (value : T)

/-- The destructor of a handle, by its class. -/
def destroy {T : Type} (w : World T) (h : Handle) : Option (World T) :=
  match h.kind with
  | .pointer => pointer.dtor w h
  | .const_pointer => const_pointer.dtor w h

/-- One handle operation: a declaration `pointer p(x);` or `const_pointer p(x);`
on a thread, a handle going out of scope, or the assignment `*p = value`
through a live `pointer` (through a `const_pointer` it is not well-formed). -/
def step {T : Type} (w : World T) : Event T → Option (World T)
  | .pointer t c => pointer.ctor w t c
  | .const_pointer t c => const_pointer.ctor w t c
  | .destroy h => destroy w h
  | .assign h value =>
    if h ∈ w.handles ∧ h.kind = .pointer then set w (pointer_base.star h) value else none

/-- A sequence of handle operations, each one completing before the next starts. -/
def run {T : Type} (w : World T) : List (Event T) → Option (World T)
  | [] => some w
  | e :: es =>
    match step w e with
    | none => none
    | some w' => run w' es


/-! ## Counting calls and live handles -/

/-- Whether the event is the construction of a handle. -/
def Event.isCtor {T : Type} : Event T → Bool
  | .pointer _ _ => true
  | .const_pointer _ _ => true
  | _ => false

/-- Whether the event is the destruction of a handle. -/
def Event.isDtor {T : Type} : Event T → Bool
  | .destroy _ => true
  | _ => false

/-- Whether the event is an assignment through a handle. -/
def Event.isAssign {T : Type} : Event T → Bool
  | .assign _ _ => true
  | _ => false

/-- The container an event is about. -/
def Event.container {T : Type} : Event T → Nat
  | .pointer _ c => c
  | .const_pointer _ c => c
  | .destroy h => h.locked_
  | .assign h _ => h.locked_

/-- Number of acquire calls (`lock` and `lock_shared`) in a call record. -/
def acquires (calls : List Call) : Nat :=
  countOp .lock calls + countOp .lock_shared calls

/-- Number of release calls (`unlock` and `unlock_shared`) in a call record. -/
def releases (calls : List Call) : Nat :=
  countOp .unlock calls + countOp .unlock_shared calls

/-- The call record of mutex object `i`. -/
def World.callsOf {T : Type} (w : World T) (i : Nat) : List Call :=
  match w.mutexes[i]? with
  | none => []
  | some m => m.calls

/-- What a handle on a container holds: the mutex object, and whether handles
of class `const_pointer` hold it shared. -/
def LockedObj.binding {T : Type} (L : LockedObj T) : Nat × Bool :=
  (L.mutex_, has_lock_shared L.MUTEX)

/-- Whether handle `h` holds mutex object `i`, shared (`sh = true`) or
exclusively (`sh = false`). -/
def Handle.holds {T : Type} (objs : List (LockedObj T)) (i : Nat) (sh : Bool) (h : Handle) :
    Bool :=
  match objs[h.locked_]? with
  | none => false
  | some L =>
    decide (L.binding.1 = i) && (decide (h.kind = .const_pointer) && L.binding.2) == sh

/-- Number of live handles that hold mutex object `i` in mode `sh`. -/
def World.live {T : Type} (w : World T) (i : Nat) (sh : Bool) : Nat :=
  w.handles.countP (Handle.holds w.objects i sh)

/-- The live handles bound to container `c`. -/
def World.liveOn {T : Type} (w : World T) (c : Nat) : List Handle :=
  w.handles.filter (fun h => decide (h.locked_ = c))

/-- A mutex class that excludes other threads: `lock()` returns to a thread
only while no other thread owns a lock of either kind, and `lock_shared()` only
while no other thread owns an exclusive lock. -/
def MutexClass.excludes (M : MutexClass) : Prop :=
  (∀ calls t, M.admits calls t .lock = true → ∀ t1, t1 ≠ t →
    countBy t1 .lock calls = countBy t1 .unlock calls ∧
    countBy t1 .lock_shared calls = countBy t1 .unlock_shared calls) ∧
  (∀ calls t, M.admits calls t .lock_shared = true → ∀ t1, t1 ≠ t →
    countBy t1 .lock calls = countBy t1 .unlock calls)

/-- A mutex class that is not reentrant: `lock()` returns to a thread only
while that thread owns no lock of either kind, and `lock_shared()` only while
it owns no exclusive lock. -/
def MutexClass.nonreentrant (M : MutexClass) : Prop :=
  (∀ calls t, M.admits calls t .lock = true →
    countBy t .lock calls = countBy t .unlock calls ∧
    countBy t .lock_shared calls = countBy t .unlock_shared calls) ∧
  (∀ calls t, M.admits calls t .lock_shared = true →
    countBy t .lock calls = countBy t .unlock calls)

/-- Whether handle `h` of thread `t` holds mutex object `i` in mode `sh`. -/
def Handle.holdsBy {T : Type} (objs : List (LockedObj T)) (i : Nat) (sh : Bool) (t : Thread)
    (h : Handle) : Bool :=
  Handle.holds objs i sh h && decide (h.thread = t)

/-- Number of live handles of thread `t` that hold mutex object `i` in mode `sh`. -/
def World.liveBy {T : Type} (w : World T) (i : Nat) (sh : Bool) (t : Thread) : Nat :=
  w.handles.countP (Handle.holdsBy w.objects i sh t)

/-- Whether handle `h` on container `L` holds the mutex shared: only a
`const_pointer` on a container with `has_lock_shared` does. -/
def Handle.shared {T : Type} (L : LockedObj T) (h : Handle) : Bool :=
  decide (h.kind = .const_pointer) && has_lock_shared L.MUTEX

/-- The acquire call of a protocol. -/
def acquireOp (sh : Bool) : MutexOp := if sh then .lock_shared else .lock

/-- The release call of a protocol. -/
def releaseOp (sh : Bool) : MutexOp := if sh then .unlock_shared else .unlock

/-- The handle object an event constructs or addresses. -/
def Event.handle {T : Type} : Event T → Handle
  | .pointer t c => ⟨.pointer, c, t⟩
  | .const_pointer t c => ⟨.const_pointer, c, t⟩
  | .destroy h => h
  | .assign h _ => h

/-- Every thread's calls on every mutex object are matched by its handles:
its live handles holding the object exclusively are its `lock()` calls not yet
followed by an `unlock()`, and likewise for the shared calls. -/
def World.balanced {T : Type} (w : World T) : Prop :=
  ∀ i m, w.mutexes[i]? = some m → ∀ t,
    w.liveBy i false t + countBy t .unlock m.calls = countBy t .lock m.calls ∧
    w.liveBy i true t + countBy t .unlock_shared m.calls = countBy t .lock_shared m.calls

/-- On every mutex object of a class that excludes other threads, while a
thread has a live handle holding it exclusively no other thread has a live
handle holding it. -/
def World.excluded {T : Type} (w : World T) : Prop :=
  ∀ i m, w.mutexes[i]? = some m → m.cls.excludes → ∀ a b, a ≠ b →
    1 ≤ w.liveBy i false a → w.liveBy i false b = 0 ∧ w.liveBy i true b = 0

/-- On every mutex object of a class that excludes other threads and is not
reentrant at most one live handle holds it exclusively, and then none holds it
shared. -/
def World.single {T : Type} (w : World T) : Prop :=
  ∀ i m, w.mutexes[i]? = some m → m.cls.excludes → m.cls.nonreentrant →
    w.live i false ≤ 1 ∧ (1 ≤ w.live i false → w.live i true = 0)

/-! ## The objects of test.cpp -/

/-- The object `Locked<int> g_i(1)`. -/
def g_i : World Int := Locked.ctor (World.empty Int) std_mutex 1

/-- The object `Locked<int, std::recursive_mutex> g_ri(11)`. -/
def g_ri : World Int := Locked.ctor (World.empty Int) std_recursive_mutex 11

/-- The object `Locked<int, std::shared_mutex> g_si(101)`. -/
def g_si : World Int := Locked.ctor (World.empty Int) std_shared_mutex 101

/-- A container `Locked<int, counting_mutex>` holding 0. -/
def g_counted : World Int := Locked.ctor (World.empty Int) counting_mutex 0

/-- The state of `g_si` once `const_pointer sci(g_si)` has completed on thread 3. -/
def g_si_read : World Int :=
  ⟨[⟨std_shared_mutex, [(3, .lock_shared)]⟩], [⟨.value std_shared_mutex, 0, 101⟩],
    [⟨.const_pointer, 0, 3⟩]⟩

/-- The state of `g_i` while `pointer pi(g_i)` of thread 0 is alive. -/
def g_i_locked : World Int :=
  ⟨[⟨std_mutex, [(0, .lock)]⟩], [⟨.value std_mutex, 0, 1⟩], [⟨.pointer, 0, 0⟩]⟩

/-- The state of `g_ri` while `pointer pri(g_ri)` and `const_pointer cri(g_ri)`
of thread 0 are alive. -/
def g_ri_locked : World Int :=
  ⟨[⟨std_recursive_mutex, [(0, .lock), (0, .lock)]⟩], [⟨.value std_recursive_mutex, 0, 11⟩],
    [⟨.pointer, 0, 0⟩, ⟨.const_pointer, 0, 0⟩]⟩

/-- The state with `std::mutex mutex; Locked<int, std::mutex&> g_li(mutex, 2),
g_li2(mutex, 3);` once `pointer` of thread 0 on `g_li` is alive. -/
def g_li_pair_locked : World Int :=
  ⟨[⟨std_mutex, [(0, .lock)]⟩], [⟨.ref std_mutex, 0, 2⟩, ⟨.ref std_mutex, 0, 3⟩],
    [⟨.pointer, 0, 0⟩]⟩

/-- The state with `std::recursive_mutex rm; Locked<int, std::recursive_mutex&>
a(rm, 2), b(rm, 3);` once `pointer` of thread 0 on `a` is alive. -/
def g_rli_pair_locked : World Int :=
  ⟨[⟨std_recursive_mutex, [(0, .lock)]⟩],
    [⟨.ref std_recursive_mutex, 0, 2⟩, ⟨.ref std_recursive_mutex, 0, 3⟩], [⟨.pointer, 0, 0⟩]⟩

/-! ## What a constructor or destructor is expected to do to the state -/

/-- The state after the call `op` by thread `t` has completed on mutex object
`i` (whose value was `m`), with `hs` as the handles alive: exactly one call is
added to the record of that mutex object, nothing else changes. -/
def World.afterCall {T : Type} (w : World T) (i : Nat) (m : MutexObj) (t : Thread)
    (op : MutexOp) (hs : List Handle) : World T :=
  { w with
    mutexes := w.mutexes.set i { m with calls := m.calls ++ [(t, op)] }
    handles := hs }

/-- The outcome of an operation that makes the single mutex call `op`: the
state `afterCall` when the mutex lets the call return, no state otherwise. -/
def World.expect {T : Type} (w : World T) (i : Nat) (m : MutexObj) (t : Thread)
    (op : MutexOp) (hs : List Handle) : Option (World T) :=
  if m.cls.admits m.calls t op then some (w.afterCall i m t op hs) else none

theorem callMutex_eq {T : Type} (w : World T) (i : Nat) (m : MutexObj) (t : Thread)
    (op : MutexOp) (hm : w.mutexes[i]? = some m) :
    w.callMutex i t op =
      if m.cls.admits m.calls t op then some (w.afterCall i m t op w.handles) else none := by
  unfold World.callMutex MutexObj.call World.afterCall
  rw [hm]
  by_cases h : m.cls.admits m.calls t op = true <;> simp [h]

theorem pointer_ctor_eq {T : Type} (w : World T) (t : Thread) (c : Nat) (L : LockedObj T)
    (m : MutexObj) (hL : w.objects[c]? = some L) (hm : w.mutexes[L.mutex_]? = some m) :
    pointer.ctor w t c = w.expect L.mutex_ m t .lock (w.handles ++ [⟨.pointer, c, t⟩]) := by
  unfold pointer.ctor World.expect
  rw [hL]
  simp only [callMutex_eq w L.mutex_ m t .lock hm]
  by_cases h : m.cls.admits m.calls t .lock = true <;> simp [h, World.afterCall]

theorem pointer_dtor_eq {T : Type} (w : World T) (h : Handle) (L : LockedObj T)
    (m : MutexObj) (hL : w.objects[h.locked_]? = some L) (hm : w.mutexes[L.mutex_]? = some m)
    (hlive : h ∈ w.handles) (hk : h.kind = .pointer) :
    pointer.dtor w h = w.expect L.mutex_ m h.thread .unlock (w.handles.erase h) := by
  unfold pointer.dtor World.expect
  rw [hL, if_pos ⟨hlive, hk⟩]
  simp only [callMutex_eq w L.mutex_ m h.thread .unlock hm]
  by_cases h : m.cls.admits m.calls h.thread .unlock = true <;> simp [h, World.afterCall]

theorem const_pointer_ctor_eq {T : Type} (w : World T) (t : Thread) (c : Nat)
    (L : LockedObj T) (m : MutexObj) (hL : w.objects[c]? = some L)
    (hm : w.mutexes[L.mutex_]? = some m) :
    const_pointer.ctor w t c =
      w.expect L.mutex_ m t (if has_lock_shared L.MUTEX then .lock_shared else .lock)
        (w.handles ++ [⟨.const_pointer, c, t⟩]) := by
  unfold const_pointer.ctor World.expect
  rw [hL]
  by_cases hs : has_lock_shared L.MUTEX = true
  · simp only [hs, if_true, callMutex_eq w L.mutex_ m t .lock_shared hm]
    by_cases h : m.cls.admits m.calls t .lock_shared = true <;> simp [h, World.afterCall]
  · simp only [hs, callMutex_eq w L.mutex_ m t .lock hm]
    by_cases h : m.cls.admits m.calls t .lock = true <;> simp [h, World.afterCall]

theorem const_pointer_dtor_eq {T : Type} (w : World T) (h : Handle) (L : LockedObj T)
    (m : MutexObj) (hL : w.objects[h.locked_]? = some L) (hm : w.mutexes[L.mutex_]? = some m)
    (hlive : h ∈ w.handles) (hk : h.kind = .const_pointer) :
    const_pointer.dtor w h =
      w.expect L.mutex_ m h.thread (if has_lock_shared L.MUTEX then .unlock_shared else .unlock)
        (w.handles.erase h) := by
  unfold const_pointer.dtor const_pointer.unlock World.expect
  rw [hL, if_pos ⟨hlive, hk⟩]
  by_cases hs : has_lock_shared L.MUTEX = true
  · simp only [hs, if_true, callMutex_eq w L.mutex_ m h.thread .unlock_shared hm]
    by_cases h : m.cls.admits m.calls h.thread .unlock_shared = true <;>
      simp [h, World.afterCall]
  · simp only [hs, callMutex_eq w L.mutex_ m h.thread .unlock hm]
    by_cases h : m.cls.admits m.calls h.thread .unlock = true <;> simp [h, World.afterCall]

/-! ## Inversion: what a completed constructor or destructor has done -/

theorem expect_some {T : Type} {w w1 : World T} {i : Nat} {m : MutexObj} {t : Thread}
    {op : MutexOp} {hs : List Handle} (h : w.expect i m t op hs = some w1) :
    m.cls.admits m.calls t op = true ∧ w1 = w.afterCall i m t op hs := by
  unfold World.expect at h
  by_cases ha : m.cls.admits m.calls t op = true
  · rw [if_pos ha] at h
    exact ⟨ha, (Option.some.inj h).symm⟩
  · rw [if_neg ha] at h
    cases h

theorem callMutex_some {T : Type} {w w1 : World T} {i : Nat} {t : Thread} {op : MutexOp}
    (h : w.callMutex i t op = some w1) :
    ∃ m, w.mutexes[i]? = some m ∧ m.cls.admits m.calls t op = true ∧
      w1 = w.afterCall i m t op w.handles := by
  cases hm : w.mutexes[i]? with
  | none => simp [World.callMutex, hm] at h
  | some m =>
    rw [callMutex_eq w i m t op hm] at h
    exact ⟨m, rfl, expect_some h⟩

theorem pointer_ctor_some {T : Type} {w w1 : World T} {t : Thread} {c : Nat}
    (h : pointer.ctor w t c = some w1) :
    ∃ L m, w.objects[c]? = some L ∧ w.mutexes[L.mutex_]? = some m ∧
      m.cls.admits m.calls t .lock = true ∧
      w1 = w.afterCall L.mutex_ m t .lock (w.handles ++ [⟨.pointer, c, t⟩]) := by
  cases hL : w.objects[c]? with
  | none => simp [pointer.ctor, hL] at h
  | some L =>
    cases hm : w.mutexes[L.mutex_]? with
    | none => simp [pointer.ctor, hL, World.callMutex, hm] at h
    | some m =>
      rw [pointer_ctor_eq w t c L m hL hm] at h
      exact ⟨L, m, rfl, hm, expect_some h⟩

theorem const_pointer_ctor_some {T : Type} {w w1 : World T} {t : Thread} {c : Nat}
    (h : const_pointer.ctor w t c = some w1) :
    ∃ L m, w.objects[c]? = some L ∧ w.mutexes[L.mutex_]? = some m ∧
      m.cls.admits m.calls t (if has_lock_shared L.MUTEX then .lock_shared else .lock) = true ∧
      w1 = w.afterCall L.mutex_ m t (if has_lock_shared L.MUTEX then .lock_shared else .lock)
        (w.handles ++ [⟨.const_pointer, c, t⟩]) := by
  cases hL : w.objects[c]? with
  | none => simp [const_pointer.ctor, hL] at h
  | some L =>
    cases hm : w.mutexes[L.mutex_]? with
    | none =>
      by_cases hs : has_lock_shared L.MUTEX = true <;>
        simp [const_pointer.ctor, hL, World.callMutex, hm, hs] at h
    | some m =>
      rw [const_pointer_ctor_eq w t c L m hL hm] at h
      exact ⟨L, m, rfl, hm, expect_some h⟩

theorem pointer_dtor_some {T : Type} {w w1 : World T} {h : Handle}
    (hd : pointer.dtor w h = some w1) :
    h ∈ w.handles ∧ h.kind = .pointer ∧
    ∃ L m, w.objects[h.locked_]? = some L ∧ w.mutexes[L.mutex_]? = some m ∧
      m.cls.admits m.calls h.thread .unlock = true ∧
      w1 = w.afterCall L.mutex_ m h.thread .unlock (w.handles.erase h) := by
  by_cases hc : h ∈ w.handles ∧ h.kind = .pointer
  · refine ⟨hc.1, hc.2, ?_⟩
    cases hL : w.objects[h.locked_]? with
    | none => simp [pointer.dtor, hL, hc] at hd
    | some L =>
      cases hm : w.mutexes[L.mutex_]? with
      | none => simp [pointer.dtor, hL, hc, World.callMutex, hm] at hd
      | some m =>
        rw [pointer_dtor_eq w h L m hL hm hc.1 hc.2] at hd
        exact ⟨L, m, rfl, hm, expect_some hd⟩
  · unfold pointer.dtor at hd
    rw [if_neg hc] at hd
    cases hd

theorem const_pointer_dtor_some {T : Type} {w w1 : World T} {h : Handle}
    (hd : const_pointer.dtor w h = some w1) :
    h ∈ w.handles ∧ h.kind = .const_pointer ∧
    ∃ L m, w.objects[h.locked_]? = some L ∧ w.mutexes[L.mutex_]? = some m ∧
      m.cls.admits m.calls h.thread
        (if has_lock_shared L.MUTEX then .unlock_shared else .unlock) = true ∧
      w1 = w.afterCall L.mutex_ m h.thread
        (if has_lock_shared L.MUTEX then .unlock_shared else .unlock) (w.handles.erase h) := by
  by_cases hc : h ∈ w.handles ∧ h.kind = .const_pointer
  · refine ⟨hc.1, hc.2, ?_⟩
    cases hL : w.objects[h.locked_]? with
    | none => simp [const_pointer.dtor, const_pointer.unlock, hL, hc] at hd
    | some L =>
      cases hm : w.mutexes[L.mutex_]? with
      | none =>
        by_cases hs : has_lock_shared L.MUTEX = true <;>
          simp [const_pointer.dtor, const_pointer.unlock, hL, hc, World.callMutex, hm, hs] at hd
      | some m =>
        rw [const_pointer_dtor_eq w h L m hL hm hc.1 hc.2] at hd
        exact ⟨L, m, rfl, hm, expect_some hd⟩
  · unfold const_pointer.dtor at hd
    rw [if_neg hc] at hd
    cases hd

/-! ## The handle classes and the mutex calls they make -/

/-- C1: constructing a `pointer` on a container makes exactly one call
`lock()` on the container's mutex object and nothing else (the construction
completes exactly when that call returns), and destroying a live `pointer`
makes exactly one call `unlock()` on the same mutex object and nothing else. -/
theorem C1_pointer_locks_and_unlocks {T : Type} (w : World T) (c : Nat) (L : LockedObj T)
    (m : MutexObj) (hL : w.objects[c]? = some L) (hm : w.mutexes[L.mutex_]? = some m) :
    (∀ t, pointer.ctor w t c =
        w.expect L.mutex_ m t .lock (w.handles ++ [⟨.pointer, c, t⟩])) ∧
    (∀ h, h ∈ w.handles → h.kind = .pointer → h.locked_ = c →
        pointer.dtor w h = w.expect L.mutex_ m h.thread .unlock (w.handles.erase h)) := by
  refine ⟨fun t => pointer_ctor_eq w t c L m hL hm, ?_⟩
  intro h hlive hk hc
  subst hc
  exact pointer_dtor_eq w h L m hL hm hlive hk

/-- C1 at `Locked<int> g_i(1)` of test.cpp: `pointer pi(g_i)` records one
`lock()`, and its destruction one `unlock()`. -/
theorem C1_pointer_locks_and_unlocks_witness :
    g_i.objects[0]? = some ⟨.value std_mutex, 0, 1⟩ ∧
    g_i.mutexes[0]? = some ⟨std_mutex, []⟩ ∧
    (pointer.ctor g_i 7 0).map (fun w => (w.mutexes.map (fun m => m.calls), w.handles))
      = some ([[(7, .lock)]], [⟨.pointer, 0, 7⟩]) := by
  refine ⟨rfl, rfl, ?_⟩
  rw [(C1_pointer_locks_and_unlocks g_i 0 ⟨.value std_mutex, 0, 1⟩ ⟨std_mutex, []⟩ rfl rfl).1 7]
  decide

/-- C3: a `const_pointer` built on container `c` in state `w` and destroyed
in a later state `w1` (where the container still has the same `MUTEX`) releases
with the protocol of its construction: either the constructor calls
`lock_shared()` and the destructor `unlock_shared()`, or the constructor calls
`lock()` and the destructor `unlock()`; each makes exactly that one call. -/
theorem C3_const_pointer_release_matches {T : Type} (w w1 : World T) (t : Thread) (c : Nat)
    (L L1 : LockedObj T) (m m1 : MutexObj)
    (hL : w.objects[c]? = some L) (hm : w.mutexes[L.mutex_]? = some m)
    (hL1 : w1.objects[c]? = some L1) (hm1 : w1.mutexes[L1.mutex_]? = some m1)
    (hM : L1.MUTEX = L.MUTEX) (hlive : ⟨.const_pointer, c, t⟩ ∈ w1.handles) :
    (const_pointer.ctor w t c =
        w.expect L.mutex_ m t .lock_shared (w.handles ++ [⟨.const_pointer, c, t⟩]) ∧
      const_pointer.dtor w1 ⟨.const_pointer, c, t⟩ =
        w1.expect L1.mutex_ m1 t .unlock_shared (w1.handles.erase ⟨.const_pointer, c, t⟩)) ∨
    (const_pointer.ctor w t c =
        w.expect L.mutex_ m t .lock (w.handles ++ [⟨.const_pointer, c, t⟩]) ∧
      const_pointer.dtor w1 ⟨.const_pointer, c, t⟩ =
        w1.expect L1.mutex_ m1 t .unlock (w1.handles.erase ⟨.const_pointer, c, t⟩)) := by
  have h := const_pointer_ctor_eq w t c L m hL hm
  have h1 := const_pointer_dtor_eq w1 ⟨.const_pointer, c, t⟩ L1 m1 hL1 hm1 hlive rfl
  rw [hM] at h1
  by_cases hs : has_lock_shared L.MUTEX = true
  · left
    rw [h, h1, hs]
    exact ⟨rfl, rfl⟩
  · right
    rw [Bool.not_eq_true] at hs
    rw [h, h1, hs]
    exact ⟨rfl, rfl⟩

/-- C3 at `g_si`: the handle acquired with `lock_shared()` releases with
`unlock_shared()`. -/
theorem C3_const_pointer_release_matches_witness :
    (const_pointer.ctor g_si 3 0).map (fun w => w.mutexes.map (fun m => m.calls))
      = some [[(3, .lock_shared)]] ∧
    (const_pointer.dtor g_si_read ⟨.const_pointer, 0, 3⟩).map
      (fun w => (w.mutexes.map (fun m => m.calls), w.handles))
      = some ([[(3, .lock_shared), (3, .unlock_shared)]], []) := by
  rcases C3_const_pointer_release_matches g_si g_si_read 3 0
    ⟨.value std_shared_mutex, 0, 101⟩ ⟨.value std_shared_mutex, 0, 101⟩
    ⟨std_shared_mutex, []⟩ ⟨std_shared_mutex, [(3, .lock_shared)]⟩ rfl rfl rfl rfl rfl
    (by decide) with h | h
  · rw [h.1, h.2]
    decide
  · exact absurd
      (congrArg (Option.map (fun w => w.mutexes.map (fun m => m.calls))) h.1) (by decide)

/-! ## The guarded value -/

theorem step_objects {T : Type} {w w1 : World T} {e : Event T} (h : step w e = some w1)
    (he : e.isAssign = false) : w1.objects = w.objects := by
  cases e with
  | pointer t c =>
    obtain ⟨L, m, -, -, -, rfl⟩ := pointer_ctor_some h
    rfl
  | const_pointer t c =>
    obtain ⟨L, m, -, -, -, rfl⟩ := const_pointer_ctor_some h
    rfl
  | destroy hd =>
    have h2 : destroy w hd = some w1 := h
    unfold destroy at h2
    cases hk : hd.kind with
    | pointer =>
      rw [hk] at h2
      obtain ⟨-, -, L, m, -, -, -, rfl⟩ := pointer_dtor_some h2
      rfl
    | const_pointer =>
      rw [hk] at h2
      obtain ⟨-, -, L, m, -, -, -, rfl⟩ := const_pointer_dtor_some h2
      rfl
  | assign hd v => cases he

theorem run_objects {T : Type} (es : List (Event T)) :
    ∀ {w w1 : World T}, run w es = some w1 → (∀ e ∈ es, e.isAssign = false) →
      w1.objects = w.objects := by
  induction es with
  | nil =>
    intro w w1 h _
    exact (Option.some.inj h) ▸ rfl
  | cons e es ih =>
    intro w w1 h hes
    unfold run at h
    cases hs : step w e with
    | none => simp [hs] at h
    | some w2 =>
      rw [hs] at h
      rw [ih h (fun e1 he1 => hes e1 (List.mem_cons_of_mem _ he1)),
        step_objects hs (hes e (List.mem_cons_self _ _))]

theorem get_set_same {T : Type} (w : World T) (c : Nat) (L : LockedObj T) (v : T)
    (hL : w.objects[c]? = some L) :
    ((w.objects.set c { L with data_ := v })[c]?).map (fun L1 => L1.data_) = some v := by
  have hlt : c < w.objects.length := by
    rcases Nat.lt_or_ge c w.objects.length with h | h
    · exact h
    · rw [List.getElem?_eq_none h] at hL
      cases hL
  simp [List.getElem?_set, hlt]

/-- C10: for every handle `operator*`, `operator->` and the conversion to a
raw pointer all give the address of `data_` of the handle's container; a write
of `v` through a handle's dereference or converted raw pointer stores `v` in
that `data_` itself, changing nothing else, and after any later constructions
and destructions of handles every handle on the same container reads `v`
through all three. -/
theorem C10_handles_designate_stored_value {T : Type} (w : World T) (hp : Handle) (v : T)
    (L : LockedObj T) (hL : w.objects[hp.locked_]? = some L) :
    (∀ h : Handle, pointer_base.star h = ⟨h.locked_⟩ ∧ pointer_base.arrow h = ⟨h.locked_⟩ ∧
      pointer_base.toPtr h = ⟨h.locked_⟩) ∧
    ∃ w1, set w (pointer_base.star hp) v = some w1 ∧
      set w (pointer_base.toPtr hp) v = some w1 ∧
      w1.objects = w.objects.set hp.locked_ { L with data_ := v } ∧
      w1.mutexes = w.mutexes ∧ w1.handles = w.handles ∧
      ∀ es w2, (∀ e ∈ es, e.isAssign = false) → run w1 es = some w2 →
        ∀ h : Handle, h.locked_ = hp.locked_ →
          get w2 (pointer_base.star h) = some v ∧ get w2 (pointer_base.arrow h) = some v ∧
          get w2 (pointer_base.toPtr h) = some v := by
  refine ⟨fun h => ⟨rfl, rfl, rfl⟩, ?_⟩
  refine ⟨{ w with objects := w.objects.set hp.locked_ { L with data_ := v } }, ?_, ?_, rfl,
    rfl, rfl, ?_⟩
  · simp [set, pointer_base.star, hL]
  · simp [set, pointer_base.toPtr, hL]
  · intro es w2 hes hrun h hh
    have ho := run_objects es hrun hes
    have hg : get w2 ⟨hp.locked_⟩ = some v := by
      unfold get
      rw [ho]
      exact get_set_same w hp.locked_ L v hL
    simp only [pointer_base.star, pointer_base.arrow, pointer_base.toPtr, hh]
    exact ⟨hg, hg, hg⟩

/-- C10 on test.cpp: `g_i` holds 1, `set(pi, 6)` through the raw pointer, then
`*pi` is 6; `g_ri` under a recursive mutex, `*pri = 23`, then the live
`const_pointer cri` reads 23. -/
theorem C10_handles_designate_stored_value_witness :
    (g_i_locked.objects[0]? = some ⟨.value std_mutex, 0, 1⟩ ∧
      ∃ w1, set g_i_locked (pointer_base.toPtr ⟨.pointer, 0, 0⟩) 6 = some w1 ∧
        get w1 (pointer_base.star ⟨.pointer, 0, 0⟩) = some 6) ∧
    (g_ri_locked.objects[0]? = some ⟨.value std_recursive_mutex, 0, 11⟩ ∧
      ∃ w1, set g_ri_locked (pointer_base.star ⟨.pointer, 0, 0⟩) 23 = some w1 ∧
        get w1 (pointer_base.star ⟨.const_pointer, 0, 0⟩) = some 23) := by
  refine ⟨⟨rfl, ?_⟩, ⟨rfl, ?_⟩⟩
  · obtain ⟨w1, -, h2, -, -, -, h3⟩ :=
      (C10_handles_designate_stored_value g_i_locked ⟨.pointer, 0, 0⟩ 6
        ⟨.value std_mutex, 0, 1⟩ rfl).2
    exact ⟨w1, h2, (h3 [] w1 (fun _ he => nomatch he) rfl ⟨.pointer, 0, 0⟩ rfl).1⟩
  · obtain ⟨w1, h1, -, -, -, -, h3⟩ :=
      (C10_handles_designate_stored_value g_ri_locked ⟨.pointer, 0, 0⟩ 23
        ⟨.value std_recursive_mutex, 0, 11⟩ rfl).2
    exact ⟨w1, h1, (h3 [] w1 (fun _ he => nomatch he) rfl ⟨.const_pointer, 0, 0⟩ rfl).1⟩

/-- C5: once a `pointer` is built on container `c`, the write of `v1` through
it succeeds; after its destruction, a `const_pointer` built on `c` reads `v1`;
and no constructor or destructor of a handle changes any stored value. -/
theorem C5_write_then_read {T : Type} (w w1 : World T) (t t1 : Thread) (c : Nat) (v1 : T)
    (h1 : pointer.ctor w t c = some w1) :
    (∃ w2, set w1 (pointer_base.star ⟨.pointer, c, t⟩) v1 = some w2 ∧
      ∀ w3, pointer.dtor w2 ⟨.pointer, c, t⟩ = some w3 →
        ∀ w4, const_pointer.ctor w3 t1 c = some w4 →
          get w4 (pointer_base.star ⟨.const_pointer, c, t1⟩) = some v1) ∧
    (∀ (u u1 : World T) (e : Event T), e.isAssign = false → step u e = some u1 →
      u1.objects = u.objects) := by
  refine ⟨?_, fun u u1 e he hs => step_objects hs he⟩
  obtain ⟨L, m, hL, -, -, hw1⟩ := pointer_ctor_some h1
  have hL1 : w1.objects[c]? = some L := by
    rw [hw1]
    exact hL
  refine ⟨{ w1 with objects := w1.objects.set c { L with data_ := v1 } }, ?_, ?_⟩
  · simp [set, pointer_base.star, hL1]
  · intro w3 h3 w4 h4
    obtain ⟨-, -, L3, m3, -, -, -, hw3⟩ := pointer_dtor_some h3
    obtain ⟨L4, m4, -, -, -, hw4⟩ := const_pointer_ctor_some h4
    have ho : w4.objects = w1.objects.set c { L with data_ := v1 } := by
      rw [hw4, hw3]
      rfl
    unfold get pointer_base.star
    rw [ho]
    exact get_set_same w1 c L v1 hL1

/-- C5 on `g_i` of test.cpp: `pointer` on thread 0 writes 6 and is destroyed,
then a `const_pointer` on thread 1 reads 6. -/
theorem C5_write_then_read_witness :
    pointer.ctor g_i 0 0 = some g_i_locked ∧
    ∃ w2 w3 w4, set g_i_locked (pointer_base.star ⟨.pointer, 0, 0⟩) 6 = some w2 ∧
      pointer.dtor w2 ⟨.pointer, 0, 0⟩ = some w3 ∧
      const_pointer.ctor w3 1 0 = some w4 ∧
      get w4 (pointer_base.star ⟨.const_pointer, 0, 1⟩) = some 6 := by
  obtain ⟨w2, hset, hread⟩ := (C5_write_then_read g_i g_i_locked 0 1 0 6 rfl).1
  have e2 : w2 = ⟨[⟨std_mutex, [(0, .lock)]⟩], [⟨.value std_mutex, 0, 6⟩], [⟨.pointer, 0, 0⟩]⟩ :=
    Option.some.inj (hset.symm.trans rfl)
  subst e2
  exact ⟨rfl, _,
    ⟨[⟨std_mutex, [(0, .lock), (0, .unlock)]⟩], [⟨.value std_mutex, 0, 6⟩], []⟩,
    ⟨[⟨std_mutex, [(0, .lock), (0, .unlock), (1, .lock)]⟩], [⟨.value std_mutex, 0, 6⟩],
      [⟨.const_pointer, 0, 1⟩]⟩,
    hset, rfl, rfl, hread _ rfl _ rfl⟩

/-! ## `const_pointer` without shared locking, and the detection -/

/-- C8: when `has_lock_shared` is false for the container's `MUTEX`, the
constructor of `const_pointer` makes the same single call `lock()` as the
constructor of `pointer`, and its destructor the same single call `unlock()`
as the destructor of `pointer`; on every state the two constructors leave the
same mutex objects, and one completes exactly when the other does. -/
theorem C8_const_pointer_as_pointer {T : Type} (w : World T) (c : Nat) (L : LockedObj T)
    (m : MutexObj) (hL : w.objects[c]? = some L) (hm : w.mutexes[L.mutex_]? = some m)
    (hs : has_lock_shared L.MUTEX = false) :
    (∀ t, const_pointer.ctor w t c =
        w.expect L.mutex_ m t .lock (w.handles ++ [⟨.const_pointer, c, t⟩]) ∧
      pointer.ctor w t c = w.expect L.mutex_ m t .lock (w.handles ++ [⟨.pointer, c, t⟩]) ∧
      (const_pointer.ctor w t c).map (fun u => u.mutexes.map (fun x => x.calls)) =
        (pointer.ctor w t c).map (fun u => u.mutexes.map (fun x => x.calls)) ∧
      (const_pointer.ctor w t c).isSome = (pointer.ctor w t c).isSome) ∧
    (∀ t, ⟨.const_pointer, c, t⟩ ∈ w.handles →
      const_pointer.dtor w ⟨.const_pointer, c, t⟩ =
        w.expect L.mutex_ m t .unlock (w.handles.erase ⟨.const_pointer, c, t⟩)) ∧
    (∀ t, ⟨.pointer, c, t⟩ ∈ w.handles →
      pointer.dtor w ⟨.pointer, c, t⟩ =
        w.expect L.mutex_ m t .unlock (w.handles.erase ⟨.pointer, c, t⟩)) := by
  refine ⟨fun t => ?_, fun t ht => ?_, fun t ht => ?_⟩
  · have h1 := const_pointer_ctor_eq w t c L m hL hm
    have h2 := pointer_ctor_eq w t c L m hL hm
    rw [hs] at h1
    refine ⟨h1, h2, ?_, ?_⟩
    · rw [h1, h2]
      unfold World.expect
      by_cases ha : m.cls.admits m.calls t .lock = true <;> simp [ha, World.afterCall]
    · rw [h1, h2]
      unfold World.expect
      by_cases ha : m.cls.admits m.calls t .lock = true <;> simp [ha]
  · have h1 := const_pointer_dtor_eq w ⟨.const_pointer, c, t⟩ L m hL hm ht rfl
    rw [hs] at h1
    exact h1
  · exact pointer_dtor_eq w ⟨.pointer, c, t⟩ L m hL hm ht rfl

/-- C8 on `g_i` of test.cpp (`std::mutex`): while `pointer pi(g_i)` is alive, a
`const_pointer` on `g_i` does not complete, just as a second `pointer`. -/
theorem C8_const_pointer_as_pointer_witness :
    g_i_locked.objects[0]? = some ⟨.value std_mutex, 0, 1⟩ ∧
    g_i_locked.mutexes[0]? = some ⟨std_mutex, [(0, .lock)]⟩ ∧
    has_lock_shared (.value std_mutex) = false ∧
    (const_pointer.ctor g_i_locked 1 0).isSome = false ∧
    (pointer.ctor g_i_locked 1 0).isSome = false := by
  have h := ((C8_const_pointer_as_pointer g_i_locked 0 ⟨.value std_mutex, 0, 1⟩
    ⟨std_mutex, [(0, .lock)]⟩ rfl rfl (by decide)).1 1).2.2.2
  have hp : (pointer.ctor g_i_locked 1 0).isSome = false := by decide
  exact ⟨rfl, rfl, by decide, h.trans hp, hp⟩

theorem private_shared_not_detected :
    has_lock_shared (.value private_shared) = false ∧
    has_lock_shared (.value { private_shared with befriendsLocked := true }) = true := by
  decide

/-! ## One step of a program, in a uniform shape -/

theorem ctor_shape {T : Type} {w w1 : World T} {e : Event T} (h : step w e = some w1)
    (he : e.isCtor = true) :
    ∃ L m, w.objects[e.container]? = some L ∧ w.mutexes[L.mutex_]? = some m ∧
      m.cls.admits m.calls e.handle.thread (acquireOp (e.handle.shared L)) = true ∧
      w1 = w.afterCall L.mutex_ m e.handle.thread (acquireOp (e.handle.shared L))
        (w.handles ++ [e.handle]) := by
  cases e with
  | pointer t c =>
    obtain ⟨L, m, hL, hm, ha, hw⟩ := pointer_ctor_some h
    exact ⟨L, m, hL, hm, ha, hw⟩
  | const_pointer t c =>
    obtain ⟨L, m, hL, hm, ha, hw⟩ := const_pointer_ctor_some h
    refine ⟨L, m, hL, hm, ?_, ?_⟩
    · simpa [Event.handle, Handle.shared, acquireOp] using ha
    · simpa [Event.handle, Handle.shared, acquireOp] using hw
  | destroy hd => cases he
  | assign hd v => cases he

theorem dtor_shape {T : Type} {w w1 : World T} {e : Event T} (h : step w e = some w1)
    (he : e.isDtor = true) :
    e.handle ∈ w.handles ∧
    ∃ L m, w.objects[e.container]? = some L ∧ w.mutexes[L.mutex_]? = some m ∧
      m.cls.admits m.calls e.handle.thread (releaseOp (e.handle.shared L)) = true ∧
      w1 = w.afterCall L.mutex_ m e.handle.thread (releaseOp (e.handle.shared L))
        (w.handles.erase e.handle) := by
  cases e with
  | pointer t c => cases he
  | const_pointer t c => cases he
  | assign hd v => cases he
  | destroy hd =>
    have h2 : destroy w hd = some w1 := h
    unfold destroy at h2
    cases hk : hd.kind with
    | pointer =>
      rw [hk] at h2
      obtain ⟨hl, -, L, m, hL, hm, ha, hw⟩ := pointer_dtor_some h2
      refine ⟨hl, L, m, hL, hm, ?_, ?_⟩
      · simpa [Event.handle, Handle.shared, releaseOp, hk] using ha
      · simpa [Event.handle, Handle.shared, releaseOp, hk] using hw
    | const_pointer =>
      rw [hk] at h2
      obtain ⟨hl, -, L, m, hL, hm, ha, hw⟩ := const_pointer_dtor_some h2
      refine ⟨hl, L, m, hL, hm, ?_, ?_⟩
      · simpa [Event.handle, Handle.shared, releaseOp, hk] using ha
      · simpa [Event.handle, Handle.shared, releaseOp, hk] using hw

theorem assign_shape {T : Type} {w w1 : World T} {e : Event T} (h : step w e = some w1)
    (he : e.isAssign = true) :
    ∃ L v, w.objects[e.container]? = some L ∧
      w1 = { w with objects := w.objects.set e.container { L with data_ := v } } := by
  cases e with
  | pointer t c => cases he
  | const_pointer t c => cases he
  | destroy hd => cases he
  | assign hd v =>
    have h2 : (if hd ∈ w.handles ∧ hd.kind = .pointer then set w (pointer_base.star hd) v
        else none) = some w1 := h
    by_cases hc : hd ∈ w.handles ∧ hd.kind = .pointer
    · rw [if_pos hc] at h2
      unfold set pointer_base.star at h2
      cases hL : w.objects[hd.locked_]? with
      | none => simp [hL] at h2
      | some L =>
        simp only [hL] at h2
        exact ⟨L, v, hL, (Option.some.inj h2).symm⟩
    · rw [if_neg hc] at h2
      cases h2

theorem event_kinds {T : Type} (e : Event T) :
    (e.isCtor = true ∧ e.isDtor = false ∧ e.isAssign = false) ∨
    (e.isCtor = false ∧ e.isDtor = true ∧ e.isAssign = false) ∨
    (e.isCtor = false ∧ e.isDtor = false ∧ e.isAssign = true) := by
  cases e <;> simp [Event.isCtor, Event.isDtor, Event.isAssign]

theorem event_handle_locked {T : Type} (e : Event T) : e.handle.locked_ = e.container := by
  cases e <;> rfl

/-! ## Call records -/

theorem countOp_append_single (op op1 : MutexOp) (t : Thread) (calls : List Call) :
    countOp op (calls ++ [(t, op1)]) = countOp op calls + if op1 = op then 1 else 0 := by
  unfold countOp
  by_cases h : op1 = op <;> simp [List.filter_append, List.filter_cons, h]

theorem callsOf_eq {T : Type} {w : World T} {i : Nat} {m : MutexObj}
    (hm : w.mutexes[i]? = some m) : w.callsOf i = m.calls := by
  unfold World.callsOf
  rw [hm]

theorem length_of_getElem? {α : Type} {l : List α} {i : Nat} {a : α} (h : l[i]? = some a) :
    i < l.length := by
  rcases Nat.lt_or_ge i l.length with h1 | h1
  · exact h1
  · rw [List.getElem?_eq_none h1] at h
    cases h

theorem afterCall_mutex_same {T : Type} (w : World T) (i : Nat) (m : MutexObj) (t : Thread)
    (op : MutexOp) (hs : List Handle) (hm : w.mutexes[i]? = some m) :
    (w.afterCall i m t op hs).mutexes[i]? = some { m with calls := m.calls ++ [(t, op)] } := by
  unfold World.afterCall
  simp [List.getElem?_set, length_of_getElem? hm]

theorem afterCall_mutex_other {T : Type} (w : World T) (i j : Nat) (m : MutexObj) (t : Thread)
    (op : MutexOp) (hs : List Handle) (hij : i ≠ j) :
    (w.afterCall i m t op hs).mutexes[j]? = w.mutexes[j]? := by
  unfold World.afterCall
  simp [List.getElem?_set, hij]

theorem countP_erase_add {α : Type} [DecidableEq α] (p : α → Bool) (a : α) :
    ∀ l : List α, a ∈ l → List.countP p (l.erase a) + (if p a then 1 else 0) = List.countP p l := by
  intro l
  induction l with
  | nil => intro h; cases h
  | cons b l ih =>
    intro h
    by_cases hb : b = a
    · subst hb
      simp [List.countP_cons]
    · have hmem : a ∈ l := by
        rcases List.mem_cons.1 h with h1 | h1
        · exact absurd h1.symm hb
        · exact h1
      have hne : (b == a) = false := by simpa using hb
      rw [List.erase_cons, hne]
      simp only [Bool.false_eq_true, if_false, List.countP_cons]
      have := ih hmem
      omega

/-! ## Calls counted against handle constructions and destructions -/

theorem acquires_append (calls : List Call) (t : Thread) (sh : Bool) :
    acquires (calls ++ [(t, acquireOp sh)]) = acquires calls + 1 ∧
    releases (calls ++ [(t, acquireOp sh)]) = releases calls := by
  unfold acquires releases
  simp only [countOp_append_single]
  cases sh <;> simp [acquireOp] <;> omega

theorem releases_append (calls : List Call) (t : Thread) (sh : Bool) :
    acquires (calls ++ [(t, releaseOp sh)]) = acquires calls ∧
    releases (calls ++ [(t, releaseOp sh)]) = releases calls + 1 := by
  unfold acquires releases
  simp only [countOp_append_single]
  cases sh <;> simp [releaseOp] <;> omega

theorem set_data_getElem? {T : Type} (objs : List (LockedObj T)) (k c : Nat) (L : LockedObj T)
    (v : T) (hL : objs[k]? = some L) :
    ((objs.set k { L with data_ := v })[c]?).map (fun x => (x.MUTEX, x.mutex_)) =
      (objs[c]?).map (fun x => (x.MUTEX, x.mutex_)) := by
  by_cases hkc : k = c
  · subst hkc
    simp [List.getElem?_set, length_of_getElem? hL, hL]
  · simp [List.getElem?_set, hkc]

theorem step_counts {T : Type} {w w1 : World T} {e : Event T} {c i : Nat}
    (hs : step w e = some w1) (hc : e.container = c)
    (hi : (w.objects[c]?).map (fun x => x.mutex_) = some i) :
    acquires (w1.callsOf i) = acquires (w.callsOf i) + (if e.isCtor then 1 else 0) ∧
    releases (w1.callsOf i) = releases (w.callsOf i) + (if e.isDtor then 1 else 0) ∧
    w1.handles.length + (if e.isDtor then 1 else 0) =
      w.handles.length + (if e.isCtor then 1 else 0) ∧
    (w1.objects[c]?).map (fun x => x.mutex_) = some i := by
  rcases event_kinds e with ⟨h1, h2, h3⟩ | ⟨h1, h2, h3⟩ | ⟨h1, h2, h3⟩
  · obtain ⟨L, m, hL, hm, -, hw⟩ := ctor_shape hs h1
    rw [hc] at hL
    rw [hL] at hi
    have hLi : L.mutex_ = i := Option.some.inj hi
    rw [hLi] at hm hw
    have hc1 := callsOf_eq (afterCall_mutex_same w i m e.handle.thread
      (acquireOp (e.handle.shared L)) (w.handles ++ [e.handle]) hm)
    rw [← hw] at hc1
    rw [hc1, callsOf_eq hm, h1, h2]
    have ha := acquires_append m.calls e.handle.thread (e.handle.shared L)
    refine ⟨by simpa using ha.1, by simpa using ha.2, ?_, ?_⟩
    · rw [hw]
      simp [World.afterCall]
    · rw [hw]
      simp [World.afterCall, hL, hLi]
  · obtain ⟨hl, L, m, hL, hm, -, hw⟩ := dtor_shape hs h2
    rw [hc] at hL
    rw [hL] at hi
    have hLi : L.mutex_ = i := Option.some.inj hi
    rw [hLi] at hm hw
    have hc1 := callsOf_eq (afterCall_mutex_same w i m e.handle.thread
      (releaseOp (e.handle.shared L)) (w.handles.erase e.handle) hm)
    rw [← hw] at hc1
    rw [hc1, callsOf_eq hm, h1, h2]
    have ha := releases_append m.calls e.handle.thread (e.handle.shared L)
    refine ⟨by simpa using ha.1, by simpa using ha.2, ?_, ?_⟩
    · rw [hw]
      have hpos : 0 < w.handles.length := List.length_pos_of_mem hl
      simp only [World.afterCall, List.length_erase_of_mem hl]
      simp only [if_true, Bool.false_eq_true, if_false]
      omega
    · rw [hw]
      simp [World.afterCall, hL, hLi]
  · obtain ⟨L, v, hL, hw⟩ := assign_shape hs h3
    have hcalls : w1.callsOf i = w.callsOf i := by
      rw [hw]
      rfl
    rw [hcalls, h1, h2]
    refine ⟨by simp, by simp, ?_, ?_⟩
    · rw [hw]
    · rw [hw]
      have h5 := set_data_getElem? w.objects e.container c L v hL
      have h6 := congrArg (Option.map (fun x : MutexParam × Nat => x.2)) h5
      simp only [Option.map_map] at h6
      exact h6.trans hi

theorem run_counts {T : Type} (es : List (Event T)) :
    ∀ {w w1 : World T} {c i : Nat}, run w es = some w1 → (∀ e ∈ es, e.container = c) →
      (w.objects[c]?).map (fun x => x.mutex_) = some i →
      acquires (w1.callsOf i) = acquires (w.callsOf i) + es.countP Event.isCtor ∧
      releases (w1.callsOf i) = releases (w.callsOf i) + es.countP Event.isDtor ∧
      w1.handles.length + es.countP Event.isDtor =
        w.handles.length + es.countP Event.isCtor := by
  induction es with
  | nil =>
    intro w w1 c i h _ _
    have hw : w = w1 := Option.some.inj h
    subst hw
    simp
  | cons e es ih =>
    intro w w1 c i h hes hi
    unfold run at h
    cases hs : step w e with
    | none => simp [hs] at h
    | some w2 =>
      rw [hs] at h
      obtain ⟨s1, s2, s3, s4⟩ := step_counts hs (hes e (List.mem_cons_self _ _)) hi
      obtain ⟨r1, r2, r3⟩ := ih h (fun e1 he1 => hes e1 (List.mem_cons_of_mem _ he1)) s4
      simp only [List.countP_cons]
      omega

/-- C4: from a state with no live handle and no call yet made on the mutex
of container `c`, after any sequence of handle constructions, destructions and
assignments on `c` that has run to completion, the acquire calls recorded
(`lock` + `lock_shared`) are as many as the constructions, the release calls
(`unlock` + `unlock_shared`) as many as the destructions, the live handles as
many as acquires minus releases, and whenever a handle is live an acquire is
outstanding. -/
theorem C4_calls_match_handles {T : Type} (w w1 : World T) (c : Nat) (L : LockedObj T)
    (es : List (Event T)) (hL : w.objects[c]? = some L) (hfresh : w.handles = [])
    (hcalls : w.callsOf L.mutex_ = []) (hes : ∀ e ∈ es, e.container = c)
    (hrun : run w es = some w1) :
    acquires (w1.callsOf L.mutex_) = es.countP Event.isCtor ∧
    releases (w1.callsOf L.mutex_) = es.countP Event.isDtor ∧
    w1.handles.length + releases (w1.callsOf L.mutex_) = acquires (w1.callsOf L.mutex_) ∧
    (∀ h ∈ w1.handles, releases (w1.callsOf L.mutex_) < acquires (w1.callsOf L.mutex_)) := by
  have hi : (w.objects[c]?).map (fun x => x.mutex_) = some L.mutex_ := by
    rw [hL]
    rfl
  obtain ⟨r1, r2, r3⟩ := run_counts es hrun hes hi
  rw [hcalls] at r1 r2
  rw [hfresh] at r3
  have a0 : acquires [] = 0 := rfl
  have b0 : releases [] = 0 := rfl
  rw [a0] at r1
  rw [b0] at r2
  simp only [List.length_nil] at r3
  refine ⟨by omega, by omega, by omega, ?_⟩
  intro h hh
  have hpos : 0 < w1.handles.length := List.length_pos_of_mem hh
  omega

/-- C4 on a container with the counting test mutex: a `pointer` and a
`const_pointer` are built and the `pointer` destroyed; two acquire calls and
one release call are recorded, and one handle is live. -/
theorem C4_calls_match_handles_witness :
    run g_counted [.pointer 0 0, .const_pointer 1 0, .destroy ⟨.pointer, 0, 0⟩] =
      some ⟨[⟨counting_mutex, [(0, .lock), (1, .lock), (0, .unlock)]⟩],
        [⟨.value counting_mutex, 0, 0⟩], [⟨.const_pointer, 0, 1⟩]⟩ ∧
    acquires [(0, .lock), (1, .lock), (0, .unlock)] = 2 ∧
    releases [(0, .lock), (1, .lock), (0, .unlock)] = 1 ∧
    [(⟨.const_pointer, 0, 1⟩ : Handle)].length + releases [(0, .lock), (1, .lock), (0, .unlock)]
      = acquires [(0, .lock), (1, .lock), (0, .unlock)] := by
  have h := C4_calls_match_handles g_counted
    ⟨[⟨counting_mutex, [(0, .lock), (1, .lock), (0, .unlock)]⟩],
        [⟨.value counting_mutex, 0, 0⟩], [⟨.const_pointer, 0, 1⟩]⟩ 0
    ⟨.value counting_mutex, 0, 0⟩
    [.pointer 0 0, .const_pointer 1 0, .destroy ⟨.pointer, 0, 0⟩]
    rfl rfl rfl (by decide) rfl
  exact ⟨rfl, h.1, h.2.1, h.2.2.1⟩

/-! ## Live handles against outstanding locks -/

theorem holds_of {T : Type} {objs : List (LockedObj T)} {h : Handle} {L : LockedObj T}
    (hL : objs[h.locked_]? = some L) (i : Nat) (sh : Bool) :
    Handle.holds objs i sh h = (decide (L.mutex_ = i) && (h.shared L == sh)) := by
  unfold Handle.holds
  rw [hL]
  rfl

theorem holds_set_data {T : Type} (objs : List (LockedObj T)) (k : Nat) (L : LockedObj T)
    (v : T) (hL : objs[k]? = some L) (i : Nat) (sh : Bool) (h : Handle) :
    Handle.holds (objs.set k { L with data_ := v }) i sh h = Handle.holds objs i sh h := by
  by_cases hk : k = h.locked_
  · subst hk
    have h1 : (objs.set h.locked_ { L with data_ := v })[h.locked_]? =
        some { L with data_ := v } := by
      simp [List.getElem?_set, length_of_getElem? hL]
    rw [holds_of h1, holds_of hL]
    rfl
  · unfold Handle.holds
    rw [List.getElem?_set_ne hk]

theorem live_append {T : Type} (w : World T) (i0 : Nat) (m : MutexObj) (t : Thread)
    (op : MutexOp) (hn : Handle) (i : Nat) (sh : Bool) :
    (w.afterCall i0 m t op (w.handles ++ [hn])).live i sh =
      w.live i sh + if Handle.holds w.objects i sh hn then 1 else 0 := by
  simp [World.live, World.afterCall, List.countP_append, List.countP_singleton]

theorem live_erase {T : Type} (w : World T) (i0 : Nat) (m : MutexObj) (t : Thread)
    (op : MutexOp) (hn : Handle) (hl : hn ∈ w.handles) (i : Nat) (sh : Bool) :
    (w.afterCall i0 m t op (w.handles.erase hn)).live i sh +
      (if Handle.holds w.objects i sh hn then 1 else 0) = w.live i sh := by
  simp only [World.live, World.afterCall]
  exact countP_erase_add _ hn w.handles hl

theorem countBy_append_single (t1 : Thread) (op1 : MutexOp) (t : Thread) (op : MutexOp)
    (calls : List Call) :
    countBy t1 op1 (calls ++ [(t, op)]) =
      countBy t1 op1 calls + if t = t1 ∧ op = op1 then 1 else 0 := by
  unfold countBy
  by_cases h : t = t1 ∧ op = op1
  · simp [List.filter_append, List.filter_cons, h]
  · simp only [List.filter_append, List.filter_cons, List.filter_nil, List.length_append, h,
      if_false]
    simp only [decide_False, Bool.false_eq_true, if_false, List.length_nil]

theorem holdsBy_of {T : Type} {objs : List (LockedObj T)} {h : Handle} {L : LockedObj T}
    (hL : objs[h.locked_]? = some L) (i : Nat) (sh : Bool) (t : Thread) :
    Handle.holdsBy objs i sh t h =
      ((decide (L.mutex_ = i) && (h.shared L == sh)) && decide (h.thread = t)) := by
  unfold Handle.holdsBy
  rw [holds_of hL]

theorem liveBy_append {T : Type} (w : World T) (i0 : Nat) (m : MutexObj) (t : Thread)
    (op : MutexOp) (hn : Handle) (i : Nat) (sh : Bool) (t1 : Thread) :
    (w.afterCall i0 m t op (w.handles ++ [hn])).liveBy i sh t1 =
      w.liveBy i sh t1 + if Handle.holdsBy w.objects i sh t1 hn then 1 else 0 := by
  simp [World.liveBy, World.afterCall, List.countP_append, List.countP_singleton]

theorem liveBy_erase {T : Type} (w : World T) (i0 : Nat) (m : MutexObj) (t : Thread)
    (op : MutexOp) (hn : Handle) (hl : hn ∈ w.handles) (i : Nat) (sh : Bool) (t1 : Thread) :
    (w.afterCall i0 m t op (w.handles.erase hn)).liveBy i sh t1 +
      (if Handle.holdsBy w.objects i sh t1 hn then 1 else 0) = w.liveBy i sh t1 := by
  simp only [World.liveBy, World.afterCall]
  exact countP_erase_add _ hn w.handles hl

theorem live_eq_zero {T : Type} (w : World T) (i : Nat) (sh : Bool)
    (h : ∀ t, w.liveBy i sh t = 0) : w.live i sh = 0 := by
  unfold World.live
  rw [List.countP_eq_zero]
  intro x hx hh
  have h1 := h x.thread
  unfold World.liveBy at h1
  rw [List.countP_eq_zero] at h1
  apply h1 x hx
  unfold Handle.holdsBy
  simp [hh]

theorem mutex_after {T : Type} {w : World T} {i0 i : Nat} {m0 m1 : MutexObj} {t : Thread}
    {op : MutexOp} {hs : List Handle} (hm : w.mutexes[i0]? = some m0)
    (hm1 : (w.afterCall i0 m0 t op hs).mutexes[i]? = some m1) :
    (i0 = i ∧ m1 = { m0 with calls := m0.calls ++ [(t, op)] }) ∨
    (i0 ≠ i ∧ w.mutexes[i]? = some m1) := by
  by_cases hi : i0 = i
  · subst hi
    rw [afterCall_mutex_same _ _ _ _ _ _ hm] at hm1
    exact Or.inl ⟨rfl, (Option.some.inj hm1).symm⟩
  · rw [afterCall_mutex_other _ _ _ _ _ _ _ hi] at hm1
    exact Or.inr ⟨hi, hm1⟩

theorem bal_acquire {T : Type} (w : World T) (hn : Handle) (L : LockedObj T) (m0 : MutexObj)
    (hL : w.objects[hn.locked_]? = some L) (hm : w.mutexes[L.mutex_]? = some m0)
    (hI : w.balanced) :
    (w.afterCall L.mutex_ m0 hn.thread (acquireOp (hn.shared L))
      (w.handles ++ [hn])).balanced := by
  intro i m1 hm1 t1
  rw [liveBy_append, liveBy_append, holdsBy_of hL, holdsBy_of hL]
  rcases mutex_after hm hm1 with ⟨hi, rfl⟩ | ⟨hi, hm2⟩
  · subst hi
    obtain ⟨b1, b2⟩ := hI _ _ hm t1
    simp only [countBy_append_single]
    cases hsh : hn.shared L <;> by_cases ht : hn.thread = t1 <;>
      simp [acquireOp, ht] <;> omega
  · obtain ⟨b1, b2⟩ := hI _ _ hm2 t1
    simp [hi]
    omega

theorem bal_release {T : Type} (w : World T) (hn : Handle) (L : LockedObj T) (m0 : MutexObj)
    (hL : w.objects[hn.locked_]? = some L) (hm : w.mutexes[L.mutex_]? = some m0)
    (hl : hn ∈ w.handles) (hI : w.balanced) :
    (w.afterCall L.mutex_ m0 hn.thread (releaseOp (hn.shared L))
      (w.handles.erase hn)).balanced := by
  intro i m1 hm1 t1
  have lf := liveBy_erase w L.mutex_ m0 hn.thread (releaseOp (hn.shared L)) hn hl i false t1
  have lt := liveBy_erase w L.mutex_ m0 hn.thread (releaseOp (hn.shared L)) hn hl i true t1
  rw [holdsBy_of hL] at lf lt
  rcases mutex_after hm hm1 with ⟨hi, rfl⟩ | ⟨hi, hm2⟩
  · subst hi
    obtain ⟨b1, b2⟩ := hI _ _ hm t1
    simp only [countBy_append_single]
    cases hsh : hn.shared L <;> by_cases ht : hn.thread = t1 <;>
      simp [releaseOp, ht, hsh] at lf lt ⊢ <;> omega
  · obtain ⟨b1, b2⟩ := hI _ _ hm2 t1
    simp [hi] at lf lt
    omega

theorem excl_acquire {T : Type} (w : World T) (hn : Handle) (L : LockedObj T) (m0 : MutexObj)
    (hL : w.objects[hn.locked_]? = some L) (hm : w.mutexes[L.mutex_]? = some m0)
    (ha : m0.cls.admits m0.calls hn.thread (acquireOp (hn.shared L)) = true)
    (hI : w.balanced) (hE : w.excluded) :
    (w.afterCall L.mutex_ m0 hn.thread (acquireOp (hn.shared L))
      (w.handles ++ [hn])).excluded := by
  intro i m1 hm1 hx a b hab
  rw [liveBy_append, liveBy_append, liveBy_append, holdsBy_of hL, holdsBy_of hL, holdsBy_of hL]
  rcases mutex_after hm hm1 with ⟨hi, rfl⟩ | ⟨hi, hm2⟩
  · subst hi
    have hx0 : m0.cls.excludes := hx
    obtain ⟨a1, a2⟩ := hI _ _ hm a
    obtain ⟨b1, b2⟩ := hI _ _ hm b
    have e := hE _ _ hm hx0 a b hab
    cases hsh : hn.shared L
    · rw [hsh] at ha
      have X := hx0.1 m0.calls hn.thread ha
      by_cases hat : hn.thread = a
      · have hbt : ¬ hn.thread = b := fun h => hab (hat.symm.trans h)
        have Xb := X b (fun h => hbt h.symm)
        simp [hat, hbt, hab]
        omega
      · have Xa := X a (fun h => hat h.symm)
        simp [hat]
        omega
    · rw [hsh] at ha
      have X := hx0.2 m0.calls hn.thread ha
      by_cases hat : hn.thread = a
      · have hbt : ¬ hn.thread = b := fun h => hab (hat.symm.trans h)
        simp [hat, hbt, hab]
        omega
      · have Xa := X a (fun h => hat h.symm)
        simp [hat]
        omega
  · have e := hE _ _ hm2 hx a b hab
    simpa [hi] using e

theorem excl_release {T : Type} (w : World T) (hn : Handle) (L : LockedObj T) (m0 : MutexObj)
    (hm : w.mutexes[L.mutex_]? = some m0) (hl : hn ∈ w.handles) (hE : w.excluded) :
    (w.afterCall L.mutex_ m0 hn.thread (releaseOp (hn.shared L))
      (w.handles.erase hn)).excluded := by
  intro i m1 hm1 hx a b hab
  have la := liveBy_erase w L.mutex_ m0 hn.thread (releaseOp (hn.shared L)) hn hl i false a
  have lf := liveBy_erase w L.mutex_ m0 hn.thread (releaseOp (hn.shared L)) hn hl i false b
  have lt := liveBy_erase w L.mutex_ m0 hn.thread (releaseOp (hn.shared L)) hn hl i true b
  rcases mutex_after hm hm1 with ⟨hi, rfl⟩ | ⟨hi, hm2⟩
  · subst hi
    have e := hE _ _ hm hx a b hab
    omega
  · have e := hE _ _ hm2 hx a b hab
    omega

theorem single_acquire {T : Type} (w : World T) (hn : Handle) (L : LockedObj T)
    (m0 : MutexObj) (hL : w.objects[hn.locked_]? = some L)
    (hm : w.mutexes[L.mutex_]? = some m0)
    (ha : m0.cls.admits m0.calls hn.thread (acquireOp (hn.shared L)) = true)
    (hI : w.balanced) (hS : w.single) :
    (w.afterCall L.mutex_ m0 hn.thread (acquireOp (hn.shared L))
      (w.handles ++ [hn])).single := by
  intro i m1 hm1 hx hr
  rw [live_append, live_append, holds_of hL, holds_of hL]
  rcases mutex_after hm hm1 with ⟨hi, rfl⟩ | ⟨hi, hm2⟩
  · subst hi
    have hx0 : m0.cls.excludes := hx
    have hr0 : m0.cls.nonreentrant := hr
    cases hsh : hn.shared L
    · rw [hsh] at ha
      have X := hx0.1 m0.calls hn.thread ha
      have Y := hr0.1 m0.calls hn.thread ha
      have hall : ∀ t1, w.liveBy L.mutex_ false t1 = 0 ∧ w.liveBy L.mutex_ true t1 = 0 := by
        intro t1
        obtain ⟨b1, b2⟩ := hI _ _ hm t1
        by_cases ht : t1 = hn.thread
        · subst ht
          omega
        · have := X t1 ht
          omega
      have z1 := live_eq_zero w L.mutex_ false (fun t1 => (hall t1).1)
      have z2 := live_eq_zero w L.mutex_ true (fun t1 => (hall t1).2)
      simp
      omega
    · rw [hsh] at ha
      have X := hx0.2 m0.calls hn.thread ha
      have Y := hr0.2 m0.calls hn.thread ha
      have hall : ∀ t1, w.liveBy L.mutex_ false t1 = 0 := by
        intro t1
        obtain ⟨b1, b2⟩ := hI _ _ hm t1
        by_cases ht : t1 = hn.thread
        · subst ht
          omega
        · have := X t1 ht
          omega
      have z1 := live_eq_zero w L.mutex_ false hall
      simp
      omega
  · have e := hS _ _ hm2 hx hr
    simpa [hi] using e

theorem single_release {T : Type} (w : World T) (hn : Handle) (L : LockedObj T)
    (m0 : MutexObj) (hL : w.objects[hn.locked_]? = some L)
    (hm : w.mutexes[L.mutex_]? = some m0) (hl : hn ∈ w.handles) (hS : w.single) :
    (w.afterCall L.mutex_ m0 hn.thread (releaseOp (hn.shared L))
      (w.handles.erase hn)).single := by
  intro i m1 hm1 hx hr
  have lf := live_erase w L.mutex_ m0 hn.thread (releaseOp (hn.shared L)) hn hl i false
  have lt := live_erase w L.mutex_ m0 hn.thread (releaseOp (hn.shared L)) hn hl i true
  rw [holds_of hL] at lf lt
  rcases mutex_after hm hm1 with ⟨hi, rfl⟩ | ⟨hi, hm2⟩
  · subst hi
    have e := hS _ _ hm hx hr
    cases hsh : hn.shared L <;> simp [hsh] at lf lt <;> omega
  · have e := hS _ _ hm2 hx hr
    simp [hi] at lf lt
    omega

theorem step_inv {T : Type} {w w1 : World T} {e : Event T} (hs : step w e = some w1)
    (hI : w.balanced) (hE : w.excluded) (hS : w.single) :
    w1.balanced ∧ w1.excluded ∧ w1.single := by
  rcases event_kinds e with ⟨h1, -, -⟩ | ⟨-, h2, -⟩ | ⟨-, -, h3⟩
  · obtain ⟨L, m, hL, hm, ha, hw⟩ := ctor_shape hs h1
    rw [← event_handle_locked] at hL
    rw [hw]
    exact ⟨bal_acquire w e.handle L m hL hm hI, excl_acquire w e.handle L m hL hm ha hI hE,
      single_acquire w e.handle L m hL hm ha hI hS⟩
  · obtain ⟨hl, L, m, hL, hm, -, hw⟩ := dtor_shape hs h2
    rw [← event_handle_locked] at hL
    rw [hw]
    exact ⟨bal_release w e.handle L m hL hm hl hI, excl_release w e.handle L m hm hl hE,
      single_release w e.handle L m hL hm hl hS⟩
  · obtain ⟨L, v, hL, hw⟩ := assign_shape hs h3
    have hlive : ∀ i sh, w1.live i sh = w.live i sh := by
      intro i sh
      rw [hw]
      unfold World.live
      congr 1
      funext h
      exact holds_set_data w.objects e.container L v hL i sh h
    have hliveBy : ∀ i sh t, w1.liveBy i sh t = w.liveBy i sh t := by
      intro i sh t
      rw [hw]
      unfold World.liveBy
      congr 1
      funext h
      unfold Handle.holdsBy
      rw [holds_set_data w.objects e.container L v hL i sh h]
    have hmut : w1.mutexes = w.mutexes := by rw [hw]
    refine ⟨?_, ?_, ?_⟩
    · intro i m hm t
      rw [hmut] at hm
      rw [hliveBy, hliveBy]
      exact hI i m hm t
    · intro i m hm hx a b hab
      rw [hmut] at hm
      rw [hliveBy, hliveBy, hliveBy]
      exact hE i m hm hx a b hab
    · intro i m hm hx hr
      rw [hmut] at hm
      rw [hlive, hlive]
      exact hS i m hm hx hr

theorem run_inv {T : Type} (es : List (Event T)) :
    ∀ {w w1 : World T}, run w es = some w1 → w.balanced → w.excluded → w.single →
      w1.balanced ∧ w1.excluded ∧ w1.single := by
  induction es with
  | nil =>
    intro w w1 h hI hE hS
    have hw : w = w1 := Option.some.inj h
    subst hw
    exact ⟨hI, hE, hS⟩
  | cons e es ih =>
    intro w w1 h hI hE hS
    unfold run at h
    cases hs : step w e with
    | none => simp [hs] at h
    | some w2 =>
      rw [hs] at h
      obtain ⟨i2, e2, s2⟩ := step_inv hs hI hE hS
      exact ih h i2 e2 s2

theorem countBy_nil (t : Thread) (op : MutexOp) : countBy t op [] = 0 := rfl

theorem fresh_inv {T : Type} (w : World T) (hh : w.handles = [])
    (hc : ∀ m ∈ w.mutexes, m.calls = []) : w.balanced ∧ w.excluded ∧ w.single := by
  have hlive : ∀ i sh, w.live i sh = 0 := by
    intro i sh
    unfold World.live
    rw [hh]
    rfl
  have hliveBy : ∀ i sh t, w.liveBy i sh t = 0 := by
    intro i sh t
    unfold World.liveBy
    rw [hh]
    rfl
  refine ⟨?_, ?_, ?_⟩
  · intro i m hm t
    have := hc m (List.getElem?_mem hm)
    rw [hliveBy, hliveBy, this]
    exact ⟨rfl, rfl⟩
  · intro i m _ _ a b _ _
    exact ⟨hliveBy i false b, hliveBy i true b⟩
  · intro i m _ _ _
    rw [hlive, hlive]
    exact ⟨by omega, fun _ => rfl⟩

/-! ## What a run never changes -/

theorem step_static {T : Type} {w w1 : World T} {e : Event T} (hs : step w e = some w1) :
    (∀ c : Nat, (w1.objects[c]?).map (fun x => (x.MUTEX, x.mutex_)) =
      (w.objects[c]?).map (fun x => (x.MUTEX, x.mutex_))) ∧
    (∀ i : Nat, (w1.mutexes[i]?).map (fun x => x.cls) = (w.mutexes[i]?).map (fun x => x.cls)) := by
  have hcls : ∀ (i0 : Nat) (m : MutexObj) (t : Thread) (op : MutexOp) (hs : List Handle),
      w.mutexes[i0]? = some m → ∀ i : Nat,
      ((w.afterCall i0 m t op hs).mutexes[i]?).map (fun x => x.cls) =
        (w.mutexes[i]?).map (fun x => x.cls) := by
    intro i0 m t op hs hm i
    by_cases hi : i0 = i
    · subst hi
      rw [afterCall_mutex_same _ _ _ _ _ _ hm, hm]
      rfl
    · rw [afterCall_mutex_other _ _ _ _ _ _ _ hi]
  rcases event_kinds e with ⟨h1, -, -⟩ | ⟨-, h2, -⟩ | ⟨-, -, h3⟩
  · obtain ⟨L, m, -, hm, -, hw⟩ := ctor_shape hs h1
    rw [hw]
    exact ⟨fun c => rfl, hcls _ _ _ _ _ hm⟩
  · obtain ⟨-, L, m, -, hm, -, hw⟩ := dtor_shape hs h2
    rw [hw]
    exact ⟨fun c => rfl, hcls _ _ _ _ _ hm⟩
  · obtain ⟨L, v, hL, hw⟩ := assign_shape hs h3
    rw [hw]
    exact ⟨fun c => set_data_getElem? w.objects e.container c L v hL, fun i => rfl⟩

theorem run_static {T : Type} (es : List (Event T)) :
    ∀ {w w1 : World T}, run w es = some w1 →
      (∀ c : Nat, (w1.objects[c]?).map (fun x => (x.MUTEX, x.mutex_)) =
        (w.objects[c]?).map (fun x => (x.MUTEX, x.mutex_))) ∧
      (∀ i : Nat, (w1.mutexes[i]?).map (fun x => x.cls) = (w.mutexes[i]?).map (fun x => x.cls)) := by
  induction es with
  | nil =>
    intro w w1 h
    have hw : w = w1 := Option.some.inj h
    subst hw
    exact ⟨fun _ => rfl, fun _ => rfl⟩
  | cons e es ih =>
    intro w w1 h
    unfold run at h
    cases hs : step w e with
    | none => simp [hs] at h
    | some w2 =>
      rw [hs] at h
      obtain ⟨a1, a2⟩ := step_static hs
      obtain ⟨b1, b2⟩ := ih h
      exact ⟨fun c => (b1 c).trans (a1 c), fun i => (b2 i).trans (a2 i)⟩

theorem static_object {T : Type} {w w1 : World T} {c : Nat} {L : LockedObj T}
    (hst : (w1.objects[c]?).map (fun x => (x.MUTEX, x.mutex_)) =
      (w.objects[c]?).map (fun x => (x.MUTEX, x.mutex_)))
    (hL : w.objects[c]? = some L) :
    ∃ L1, w1.objects[c]? = some L1 ∧ L1.MUTEX = L.MUTEX ∧ L1.mutex_ = L.mutex_ := by
  rw [hL] at hst
  cases h1 : w1.objects[c]? with
  | none =>
    rw [h1] at hst
    cases hst
  | some L1 =>
    rw [h1] at hst
    have h2 := Option.some.inj hst
    exact ⟨L1, rfl, congrArg Prod.fst h2, congrArg Prod.snd h2⟩

theorem static_mutex {T : Type} {w w1 : World T} {i : Nat} {m : MutexObj}
    (hst : (w1.mutexes[i]?).map (fun x => x.cls) = (w.mutexes[i]?).map (fun x => x.cls))
    (hm : w.mutexes[i]? = some m) :
    ∃ m1, w1.mutexes[i]? = some m1 ∧ m1.cls = m.cls := by
  rw [hm] at hst
  cases h1 : w1.mutexes[i]? with
  | none =>
    rw [h1] at hst
    cases hst
  | some m1 =>
    rw [h1] at hst
    exact ⟨m1, rfl, Option.some.inj hst⟩

/-! ## The standard mutex classes exclude -/

theorem countBy_absent (t : Thread) (op : MutexOp) (calls : List Call)
    (h : ¬ ∃ c ∈ calls, c.1 = t) : countBy t op calls = 0 := by
  unfold countBy
  rw [List.length_eq_zero, List.filter_eq_nil_iff]
  intro c hc hd
  simp only [decide_eq_true_eq] at hd
  exact h ⟨c, hc, hd.1⟩

theorem idle_of_all (calls : List Call)
    (h : calls.all (fun c => ownsNone c.1 calls && sharesNone c.1 calls) = true) (t1 : Thread) :
    countBy t1 .lock calls = countBy t1 .unlock calls ∧
    countBy t1 .lock_shared calls = countBy t1 .unlock_shared calls := by
  by_cases hex : ∃ c ∈ calls, c.1 = t1
  · obtain ⟨c, hc, rfl⟩ := hex
    have := List.all_eq_true.1 h c hc
    simpa [ownsNone, sharesNone] using this
  · simp [countBy_absent _ _ calls hex]

theorem std_mutex_excludes : std_mutex.excludes ∧ std_mutex.nonreentrant := by
  have key : ∀ calls t, std_mutex.admits calls t .lock = true → ∀ t1,
      countBy t1 .lock calls = countBy t1 .unlock calls ∧
      countBy t1 .lock_shared calls = countBy t1 .unlock_shared calls :=
    fun calls _ h t1 => idle_of_all calls h t1
  have no : ∀ calls t, std_mutex.admits calls t .lock_shared = false := fun _ _ => rfl
  refine ⟨⟨fun calls t h t1 _ => key calls t h t1, ?_⟩, ⟨fun calls t h => key calls t h t, ?_⟩⟩
  · intro calls t h
    rw [no] at h
    cases h
  · intro calls t h
    rw [no] at h
    cases h

theorem std_recursive_mutex_excludes : std_recursive_mutex.excludes := by
  constructor
  · intro calls t h t1 ht
    by_cases hex : ∃ c ∈ calls, c.1 = t1
    · obtain ⟨c, hc, rfl⟩ := hex
      have h1 : calls.all (fun c => c.1 == t ||
          (ownsNone c.1 calls && sharesNone c.1 calls)) = true := h
      have := List.all_eq_true.1 h1 c hc
      simpa [ownsNone, sharesNone, ht] using this
    · simp [countBy_absent _ _ calls hex]
  · intro calls t h
    have no : std_recursive_mutex.admits calls t .lock_shared = false := rfl
    rw [no] at h
    cases h

theorem std_shared_mutex_excludes :
    std_shared_mutex.excludes ∧ std_shared_mutex.nonreentrant := by
  have key : ∀ calls t, std_shared_mutex.admits calls t .lock = true → ∀ t1,
      countBy t1 .lock calls = countBy t1 .unlock calls ∧
      countBy t1 .lock_shared calls = countBy t1 .unlock_shared calls :=
    fun calls _ h t1 => idle_of_all calls h t1
  have key2 : ∀ calls t, std_shared_mutex.admits calls t .lock_shared = true → ∀ t1,
      countBy t1 .lock calls = countBy t1 .unlock calls := by
    intro calls t h t1
    by_cases hex : ∃ c ∈ calls, c.1 = t1
    · obtain ⟨c, hc, rfl⟩ := hex
      have h1 : calls.all (fun c => ownsNone c.1 calls) = true := h
      have := List.all_eq_true.1 h1 c hc
      simpa [ownsNone] using this
    · simp [countBy_absent _ _ calls hex]
  exact ⟨⟨fun calls t h t1 _ => key calls t h t1, fun calls t h t1 _ => key2 calls t h t1⟩,
    ⟨fun calls t h => key calls t h t, fun calls t h => key2 calls t h t⟩⟩

/-! ## Mutual exclusion -/

theorem countP_le_add {α : Type} (p q r : α → Bool) :
    ∀ l : List α, (∀ x ∈ l, p x = true → q x = true ∨ r x = true) →
      List.countP p l ≤ List.countP q l + List.countP r l := by
  intro l
  induction l with
  | nil => intro _; simp
  | cons a l ih =>
    intro h
    have h1 := ih (fun x hx => h x (List.mem_cons_of_mem _ hx))
    have h2 := h a (List.mem_cons_self _ _)
    simp only [List.countP_cons]
    revert h2
    cases p a <;> cases q a <;> cases r a <;> simp <;> omega

theorem handle_holdsBy {T : Type} {w : World T} {h : Handle} {L : LockedObj T}
    (hL : w.objects[h.locked_]? = some L) (hl : h ∈ w.handles) :
    1 ≤ w.liveBy L.mutex_ (h.shared L) h.thread := by
  have hh : Handle.holdsBy w.objects L.mutex_ (h.shared L) h.thread h = true := by
    rw [holdsBy_of hL]
    simp
  exact List.countP_pos_iff.2 ⟨h, hl, hh⟩

theorem pointer_shared {T : Type} (L : LockedObj T) {h : Handle} (hk : h.kind = .pointer) :
    h.shared L = false := by
  simp [Handle.shared, hk]

theorem pointer_holds {T : Type} {w : World T} {h : Handle} {L : LockedObj T}
    (hL : w.objects[h.locked_]? = some L) (hk : h.kind = .pointer) (hl : h ∈ w.handles) :
    1 ≤ w.live L.mutex_ false := by
  have hh : Handle.holds w.objects L.mutex_ false h = true := by
    rw [holds_of hL]
    simp [Handle.shared, hk]
  exact List.countP_pos_iff.2 ⟨h, hl, hh⟩

theorem blocked_while_pointer_live {T : Type} {w : World T} {ca cb : Nat}
    {La Lb : LockedObj T} {m : MutexObj} (hI : w.balanced)
    (hLa : w.objects[ca]? = some La) (hLb : w.objects[cb]? = some Lb)
    (hab : Lb.mutex_ = La.mutex_) (hm : w.mutexes[La.mutex_]? = some m)
    (hx : m.cls.excludes) (h : Handle) (hl : h ∈ w.handles) (hk : h.kind = .pointer)
    (hc : h.locked_ = ca) (t : Thread) (ht : t ≠ h.thread ∨ m.cls.nonreentrant) :
    pointer.ctor w t cb = none ∧ const_pointer.ctor w t cb = none := by
  subst hc
  have h1 := handle_holdsBy hLa hl
  rw [pointer_shared La hk] at h1
  obtain ⟨i1, -⟩ := hI _ _ hm h.thread
  have nolock : m.cls.admits m.calls t .lock = false := by
    cases ha : m.cls.admits m.calls t .lock with
    | false => rfl
    | true =>
      by_cases hth : t = h.thread
      · rcases ht with ht | ht
        · exact absurd hth ht
        · have := ht.1 m.calls t ha
          rw [hth] at this
          omega
      · have := hx.1 m.calls t ha h.thread (fun e => hth e.symm)
        omega
  have noshared : m.cls.admits m.calls t .lock_shared = false := by
    cases ha : m.cls.admits m.calls t .lock_shared with
    | false => rfl
    | true =>
      by_cases hth : t = h.thread
      · rcases ht with ht | ht
        · exact absurd hth ht
        · have := ht.2 m.calls t ha
          rw [hth] at this
          omega
      · have := hx.2 m.calls t ha h.thread (fun e => hth e.symm)
        omega
  rw [← hab] at hm
  rw [pointer_ctor_eq w t cb Lb m hLb hm, const_pointer_ctor_eq w t cb Lb m hLb hm]
  unfold World.expect
  constructor
  · simp [nolock]
  · by_cases hs : has_lock_shared Lb.MUTEX = true <;> simp [hs, nolock, noshared]

theorem liveOn_length_le {T : Type} (w : World T) (c : Nat) (L : LockedObj T)
    (hL : w.objects[c]? = some L) :
    (w.liveOn c).length ≤ w.live L.mutex_ false + w.live L.mutex_ true := by
  unfold World.liveOn World.live
  rw [← List.countP_eq_length_filter]
  apply countP_le_add
  intro x _ hx
  have hc : x.locked_ = c := by simpa using hx
  have hLx : w.objects[x.locked_]? = some L := by
    rw [hc]
    exact hL
  rw [holds_of hLx, holds_of hLx]
  cases x.shared L <;> simp

theorem only_pointer_on {T : Type} {w : World T} {c : Nat} {L : LockedObj T} {m : MutexObj}
    (hS : w.single) (hL : w.objects[c]? = some L) (hm : w.mutexes[L.mutex_]? = some m)
    (hx : m.cls.excludes) (hr : m.cls.nonreentrant) (h : Handle) (hh : h ∈ w.liveOn c)
    (hk : h.kind = .pointer) :
    w.liveOn c = [h] := by
  have hmem : h ∈ w.handles ∧ h.locked_ = c := by
    simpa [World.liveOn] using hh
  have hLh : w.objects[h.locked_]? = some L := by
    rw [hmem.2]
    exact hL
  have h1 := pointer_holds hLh hk hmem.1
  have h2 := hS _ _ hm hx hr
  have h3 := liveOn_length_le w c L hL
  have hlen : (w.liveOn c).length ≤ 1 := by omega
  cases hl : w.liveOn c with
  | nil =>
    rw [hl] at hh
    cases hh
  | cons a l =>
    rw [hl] at hh hlen
    cases l with
    | nil =>
      rcases List.mem_singleton.1 hh with rfl
      rfl
    | cons b l1 =>
      simp at hlen

theorem same_thread_on {T : Type} {w : World T} {c : Nat} {L : LockedObj T} {m : MutexObj}
    (hE : w.excluded) (hL : w.objects[c]? = some L) (hm : w.mutexes[L.mutex_]? = some m)
    (hx : m.cls.excludes) (h : Handle) (hh : h ∈ w.liveOn c) (hk : h.kind = .pointer)
    (h1 : Handle) (hh1 : h1 ∈ w.liveOn c) : h1.thread = h.thread := by
  have hmem : h ∈ w.handles ∧ h.locked_ = c := by
    simpa [World.liveOn] using hh
  have hmem1 : h1 ∈ w.handles ∧ h1.locked_ = c := by
    simpa [World.liveOn] using hh1
  have hLh : w.objects[h.locked_]? = some L := by
    rw [hmem.2]
    exact hL
  have hLh1 : w.objects[h1.locked_]? = some L := by
    rw [hmem1.2]
    exact hL
  have p := handle_holdsBy hLh hmem.1
  rw [pointer_shared L hk] at p
  have p1 := handle_holdsBy hLh1 hmem1.1
  by_contra hne
  have e := hE _ _ hm hx h.thread h1.thread (fun e => hne e.symm) p
  cases hs : h1.shared L
  · rw [hs] at p1
    omega
  · rw [hs] at p1
    omega

/-- C6, as the code has it: when the mutex of container `c` belongs to a class
that makes `lock()` wait while another thread owns a lock and `lock_shared()`
wait while another thread owns an exclusive lock, then in every state reached
from a fresh state (no handle alive, no call made) by constructing and
destroying handles, every handle live on `c` next to a live `pointer` belongs
to the thread of that `pointer`: handles of different threads never coexist
with a `pointer`.  When the class is moreover not reentrant, a live `pointer`
on `c` is the only live handle on `c`: at most one `pointer` is live, and no
`const_pointer` is live next to it. -/
theorem C6_pointer_excludes_other_threads {T : Type} (w w1 : World T) (es : List (Event T))
    (c : Nat) (L : LockedObj T) (m : MutexObj)
    (hfresh : w.handles = []) (hcalls : ∀ x ∈ w.mutexes, x.calls = [])
    (hL : w.objects[c]? = some L) (hm : w.mutexes[L.mutex_]? = some m)
    (hx : m.cls.excludes) (hrun : run w es = some w1) :
    (∀ h ∈ w1.liveOn c, h.kind = .pointer → ∀ h1 ∈ w1.liveOn c, h1.thread = h.thread) ∧
    (m.cls.nonreentrant →
      (∀ h ∈ w1.liveOn c, h.kind = .pointer → w1.liveOn c = [h]) ∧
      (w1.liveOn c).countP (fun h => decide (h.kind = .pointer)) ≤ 1 ∧
      (∀ h ∈ w1.liveOn c, h.kind = .pointer →
        ∀ h1 ∈ w1.liveOn c, h1.kind ≠ .const_pointer)) := by
  obtain ⟨hI0, hE0, hS0⟩ := fresh_inv w hfresh hcalls
  obtain ⟨-, hE, hS⟩ := run_inv es hrun hI0 hE0 hS0
  obtain ⟨s1, s2⟩ := run_static es hrun
  obtain ⟨L1, hL1, -, hmu⟩ := static_object (s1 c) hL
  obtain ⟨m1, hm1, hcls⟩ := static_mutex (s2 L.mutex_) hm
  rw [← hmu] at hm1
  rw [← hcls] at hx
  refine ⟨fun h hh hk h1 hh1 => same_thread_on hE hL1 hm1 hx h hh hk h1 hh1, ?_⟩
  intro hr
  rw [← hcls] at hr
  have A : ∀ h ∈ w1.liveOn c, h.kind = .pointer → w1.liveOn c = [h] :=
    fun h hh hk => only_pointer_on hS hL1 hm1 hx hr h hh hk
  refine ⟨A, ?_, ?_⟩
  · by_cases hpos : 0 < (w1.liveOn c).countP (fun h => decide (h.kind = .pointer))
    · obtain ⟨h, hh, hk⟩ := List.countP_pos_iff.1 hpos
      have hk1 : h.kind = .pointer := by simpa using hk
      rw [A h hh hk1]
      exact List.countP_le_length _
    · omega
  · intro h hh hk h1 hh1 hk1
    rw [A h hh hk] at hh1
    rw [List.mem_singleton.1 hh1, hk] at hk1
    cases hk1

/-- C6 on test.cpp: on `g_ri` (`std::recursive_mutex`) the `const_pointer cri`
live next to `pointer pri` belongs to the same thread; on `g_i` (`std::mutex`)
the live `pointer pi` is the only live handle. -/
theorem C6_pointer_excludes_other_threads_witness :
    (std_recursive_mutex.excludes ∧
      run g_ri [.pointer 0 0, .const_pointer 0 0] = some g_ri_locked ∧
      (∀ h1 ∈ g_ri_locked.liveOn 0, h1.thread = 0)) ∧
    (std_mutex.excludes ∧ std_mutex.nonreentrant ∧
      run g_i [.pointer 0 0] = some g_i_locked ∧
      g_i_locked.liveOn 0 = [⟨.pointer, 0, 0⟩]) :=
  ⟨⟨std_recursive_mutex_excludes, rfl,
      (C6_pointer_excludes_other_threads g_ri g_ri_locked [.pointer 0 0, .const_pointer 0 0] 0
        ⟨.value std_recursive_mutex, 0, 11⟩ ⟨std_recursive_mutex, []⟩ rfl (by decide) rfl rfl
        std_recursive_mutex_excludes rfl).1 ⟨.pointer, 0, 0⟩ (by decide) rfl⟩,
    ⟨std_mutex_excludes.1, std_mutex_excludes.2, rfl,
      ((C6_pointer_excludes_other_threads g_i g_i_locked [.pointer 0 0] 0
        ⟨.value std_mutex, 0, 1⟩ ⟨std_mutex, []⟩ rfl (by decide) rfl rfl
        std_mutex_excludes.1 rfl).2 std_mutex_excludes.2).1 ⟨.pointer, 0, 0⟩ (by decide) rfl⟩⟩

/-- C6 as stated fails on test.cpp itself: on `g_ri`, guarded by a
`std::recursive_mutex`, thread 0 builds `pointer pri(g_ri)` and then
`const_pointer cri(g_ri)`; both are live at once, and so are two `pointer` of
thread 0 (a `pointer` of thread 1 does not complete).  With a mutex that only
counts calls (`counting_mutex`) a `pointer` of thread 0 and a `pointer` of
thread 1 are live at once. -/
theorem C6_counterexample :
    run g_ri [.pointer 0 0, .const_pointer 0 0] = some g_ri_locked ∧
    g_ri_locked.liveOn 0 = [⟨.pointer, 0, 0⟩, ⟨.const_pointer, 0, 0⟩] ∧
    (run g_ri [.pointer 0 0, .pointer 0 0]).map (fun w => w.liveOn 0) =
      some [⟨.pointer, 0, 0⟩, ⟨.pointer, 0, 0⟩] ∧
    (run g_ri [.pointer 0 0, .pointer 1 0]).map (fun w => w.liveOn 0) = none ∧
    (run g_counted [.pointer 0 0, .pointer 1 0]).map (fun w => w.liveOn 0) =
      some [⟨.pointer, 0, 0⟩, ⟨.pointer, 0, 1⟩] :=
  ⟨rfl, by decide, by decide, by decide, by decide⟩

/-! ## Containers bound to an external mutex -/

theorem ctor_mutex_ref {T : Type} {w w1 : World T} {x : Nat} {mx : MutexObj} {v : T}
    (hx : w.mutexes[x]? = some mx) (h : Locked.ctor_mutex w true x v = some w1) :
    w1 = { w with objects := w.objects ++ [⟨.ref mx.cls, x, v⟩] } := by
  unfold Locked.ctor_mutex at h
  rw [hx] at h
  exact (Option.some.inj h).symm

/-- C7, as the code has it: two containers of type `Locked<T, M&>` built on
the same external mutex object `x` create no mutex object, and `mutex_` of both
denotes `x` in every later state, so that every call made by their handles is
made on `x` itself.  When the containers are built before any handle exists or
any call is made, and the class of `x` makes `lock()` wait while another thread
owns a lock and `lock_shared()` wait while another thread owns an exclusive
lock, then while a `pointer` on one of the two is live, no construction of a
`pointer` or `const_pointer` on the other by another thread completes, and none
by the same thread either when the class is not reentrant. -/
theorem C7_reference_mutex_is_shared {T : Type} (w0 wa wb w1 : World T) (x : Nat)
    (mx : MutexObj) (va vb : T) (es : List (Event T))
    (hx : w0.mutexes[x]? = some mx)
    (ha : Locked.ctor_mutex w0 true x va = some wa)
    (hb : Locked.ctor_mutex wa true x vb = some wb)
    (hrun : run wb es = some w1) :
    wb.mutexes = w0.mutexes ∧
    (w1.objects[w0.objects.length]?).map (fun L => (L.MUTEX, L.mutex_)) =
      some (.ref mx.cls, x) ∧
    (w1.objects[w0.objects.length + 1]?).map (fun L => (L.MUTEX, L.mutex_)) =
      some (.ref mx.cls, x) ∧
    (w0.handles = [] → (∀ m ∈ w0.mutexes, m.calls = []) → mx.cls.excludes →
      ∀ ca cb : Nat,
        (ca = w0.objects.length ∧ cb = w0.objects.length + 1) ∨
          (ca = w0.objects.length + 1 ∧ cb = w0.objects.length) →
        ∀ h ∈ w1.handles, h.kind = .pointer → h.locked_ = ca →
          ∀ t, t ≠ h.thread ∨ mx.cls.nonreentrant →
            pointer.ctor w1 t cb = none ∧ const_pointer.ctor w1 t cb = none) := by
  have ea := ctor_mutex_ref hx ha
  have hxa : wa.mutexes[x]? = some mx := by
    rw [ea]
    exact hx
  have eb := ctor_mutex_ref hxa hb
  have hmut : wb.mutexes = w0.mutexes := by
    rw [eb, ea]
  have hobj : wb.objects = w0.objects ++ [⟨.ref mx.cls, x, va⟩] ++ [⟨.ref mx.cls, x, vb⟩] := by
    rw [eb, ea]
  have hA : wb.objects[w0.objects.length]? = some ⟨.ref mx.cls, x, va⟩ := by
    rw [hobj, List.append_assoc, List.getElem?_append_right (Nat.le_refl _), Nat.sub_self]
    rfl
  have hB : wb.objects[w0.objects.length + 1]? = some ⟨.ref mx.cls, x, vb⟩ := by
    rw [hobj, List.append_assoc, List.getElem?_append_right (Nat.le_succ _)]
    simp
  obtain ⟨s1, s2⟩ := run_static es hrun
  obtain ⟨LA, hLA, hMA, hmA⟩ := static_object (s1 _) hA
  obtain ⟨LB, hLB, hMB, hmB⟩ := static_object (s1 _) hB
  have hmA1 : LA.mutex_ = x := hmA
  have hmB1 : LB.mutex_ = x := hmB
  have hMA1 : LA.MUTEX = .ref mx.cls := hMA
  have hMB1 : LB.MUTEX = .ref mx.cls := hMB
  refine ⟨hmut, by rw [hLA, ← hmA1, ← hMA1]; rfl, by rw [hLB, ← hmB1, ← hMB1]; rfl, ?_⟩
  intro hfresh hcalls hexcl ca cb hc h hl hk hloc t ht
  have hhand : wb.handles = [] := by
    rw [eb, ea]
    exact hfresh
  obtain ⟨hI0, hE0, hS0⟩ := fresh_inv wb hhand (by rw [hmut]; exact hcalls)
  obtain ⟨hI, -, -⟩ := run_inv es hrun hI0 hE0 hS0
  have hxb : wb.mutexes[x]? = some mx := by
    rw [hmut]
    exact hx
  obtain ⟨m1, hm1, hcls⟩ := static_mutex (s2 x) hxb
  rw [← hcls] at hexcl ht
  rcases hc with ⟨rfl, rfl⟩ | ⟨rfl, rfl⟩
  · exact blocked_while_pointer_live hI hLA hLB (hmB1.trans hmA1.symm)
      (by rw [hmA1]; exact hm1) hexcl h hl hk hloc t ht
  · exact blocked_while_pointer_live hI hLB hLA (hmA1.trans hmB1.symm)
      (by rw [hmB1]; exact hm1) hexcl h hl hk hloc t ht

/-- C7 on `std::mutex mutex` shared by two `Locked<int, std::mutex&>`: while
`pointer` of thread 0 on the first is alive, neither handle class can be built
on the second, by thread 1 or by thread 0; on a shared `std::recursive_mutex&`
thread 1 cannot build them either. -/
theorem C7_reference_mutex_is_shared_witness :
    (run (⟨[⟨std_mutex, []⟩], [⟨.ref std_mutex, 0, 2⟩, ⟨.ref std_mutex, 0, 3⟩], []⟩ : World Int)
        [.pointer 0 0] = some g_li_pair_locked ∧
      (pointer.ctor g_li_pair_locked 1 1 = none ∧
        const_pointer.ctor g_li_pair_locked 1 1 = none) ∧
      (pointer.ctor g_li_pair_locked 0 1 = none ∧
        const_pointer.ctor g_li_pair_locked 0 1 = none)) ∧
    (run (⟨[⟨std_recursive_mutex, []⟩],
        [⟨.ref std_recursive_mutex, 0, 2⟩, ⟨.ref std_recursive_mutex, 0, 3⟩], []⟩ : World Int)
        [.pointer 0 0] = some g_rli_pair_locked ∧
      (pointer.ctor g_rli_pair_locked 1 1 = none ∧
        const_pointer.ctor g_rli_pair_locked 1 1 = none)) :=
  ⟨⟨rfl,
      (C7_reference_mutex_is_shared ((World.empty Int).declMutex std_mutex)
        ⟨[⟨std_mutex, []⟩], [⟨.ref std_mutex, 0, 2⟩], []⟩
        ⟨[⟨std_mutex, []⟩], [⟨.ref std_mutex, 0, 2⟩, ⟨.ref std_mutex, 0, 3⟩], []⟩
        g_li_pair_locked 0 ⟨std_mutex, []⟩ 2 3 [.pointer 0 0] rfl rfl rfl rfl).2.2.2
        rfl (by decide) std_mutex_excludes.1 0 1 (Or.inl ⟨rfl, rfl⟩)
        ⟨.pointer, 0, 0⟩ (by decide) rfl rfl 1 (Or.inl (by decide)),
      (C7_reference_mutex_is_shared ((World.empty Int).declMutex std_mutex)
        ⟨[⟨std_mutex, []⟩], [⟨.ref std_mutex, 0, 2⟩], []⟩
        ⟨[⟨std_mutex, []⟩], [⟨.ref std_mutex, 0, 2⟩, ⟨.ref std_mutex, 0, 3⟩], []⟩
        g_li_pair_locked 0 ⟨std_mutex, []⟩ 2 3 [.pointer 0 0] rfl rfl rfl rfl).2.2.2
        rfl (by decide) std_mutex_excludes.1 0 1 (Or.inl ⟨rfl, rfl⟩)
        ⟨.pointer, 0, 0⟩ (by decide) rfl rfl 0 (Or.inr std_mutex_excludes.2)⟩,
    ⟨rfl,
      (C7_reference_mutex_is_shared ((World.empty Int).declMutex std_recursive_mutex)
        ⟨[⟨std_recursive_mutex, []⟩], [⟨.ref std_recursive_mutex, 0, 2⟩], []⟩
        ⟨[⟨std_recursive_mutex, []⟩],
          [⟨.ref std_recursive_mutex, 0, 2⟩, ⟨.ref std_recursive_mutex, 0, 3⟩], []⟩
        g_rli_pair_locked 0 ⟨std_recursive_mutex, []⟩ 2 3 [.pointer 0 0] rfl rfl rfl rfl).2.2.2
        rfl (by decide) std_recursive_mutex_excludes 0 1 (Or.inl ⟨rfl, rfl⟩)
        ⟨.pointer, 0, 0⟩ (by decide) rfl rfl 1 (Or.inl (by decide))⟩⟩

/-- C7 as stated fails three times.  With `MUTEX` not a reference
(`Locked<int, spin_mutex> a(m, 1), b(m, 2)`) each container copy-constructs its
own mutex: `pointer` on `a` and then on `b` both complete, and no call reaches
the external mutex `m`.  With a `std::recursive_mutex&` shared by two
containers, thread 0 builds `pointer` on the first and then on the second.
With a shared mutex that only counts calls (`counting_mutex&`), thread 0 builds
`pointer` on the first and thread 1 on the second. -/
theorem C7_counterexample :
    ((((Locked.ctor_mutex ((World.empty Int).declMutex spin_mutex) false 0 1).bind
        (fun w => Locked.ctor_mutex w false 0 2)).bind
        (fun w => run w [.pointer 0 0, .pointer 1 1])).map
        (fun w => (w.objects.map (fun L => L.mutex_), w.mutexes.map (fun m => m.calls),
          w.handles))) =
      some ([1, 2], [[], [(0, .lock)], [(1, .lock)]], [⟨.pointer, 0, 0⟩, ⟨.pointer, 1, 1⟩]) ∧
    ((((Locked.ctor_mutex ((World.empty Int).declMutex std_recursive_mutex) true 0 1).bind
        (fun w => Locked.ctor_mutex w true 0 2)).bind
        (fun w => run w [.pointer 0 0, .pointer 0 1])).map
        (fun w => (w.objects.map (fun L => L.mutex_), w.mutexes.map (fun m => m.calls),
          w.handles))) =
      some ([0, 0], [[(0, .lock), (0, .lock)]], [⟨.pointer, 0, 0⟩, ⟨.pointer, 1, 0⟩]) ∧
    ((((Locked.ctor_mutex ((World.empty Int).declMutex counting_mutex) true 0 1).bind
        (fun w => Locked.ctor_mutex w true 0 2)).bind
        (fun w => run w [.pointer 0 0, .pointer 1 1])).map
        (fun w => (w.objects.map (fun L => L.mutex_), w.mutexes.map (fun m => m.calls),
          w.handles))) =
      some ([0, 0], [[(0, .lock), (1, .lock)]], [⟨.pointer, 0, 0⟩, ⟨.pointer, 1, 1⟩]) :=
  ⟨rfl, rfl, rfl⟩

end LockedHpp
